import Mathlib

/-!
Verification of the chess evaluator and minimax search core in `ai_eval.c`.

The embedding is shallow and executable:
* C `int` scalars, coordinates and piece-slot indices become `Int`;
  the board sentinel `-1` is kept literally.
* C `double` values become elements of an arbitrary linearly ordered
  commutative ring `α`: the engine only ever adds, subtracts, multiplies and
  compares scores and weights (never divides), and every such operation is
  modelled exactly.  `ℚ` or `ℝ` are the intended instances; `ℤ` is used to
  run concrete scenarios whose parameters are integral.  The only literal
  this idealizes is the C search sentinel `1e300`, modelled as `10 ^ 300`.
* C arrays become total functions `Int → _`; slots the C code never reads
  (indices at or above `piece_count`) are irrelevant to every theorem below.
* `uint64_t` arithmetic becomes `Nat` arithmetic reduced mod `2 ^ 64`.
* fallible C functions returning a 0/1 status and writing through pointers
  become `Option`-valued functions; nullable pointers become `Option` inputs.
* `remaining_plies` is modelled as `Nat`; for `remaining_plies ≤ 0` every
  branch of the C search behaves as at `0`, and no theorem below depends on a
  negative ply count.
-/

/-- A two-component evaluation score, C struct `Score` (`material`,
`heuristic`, both `double`). -/
structure Score (α : Type) where
  material : α
  heuristic : α
deriving DecidableEq, Repr

/-- A move, C struct `Move`. -/
structure Move where
  from_col : Int
  from_row : Int
  to_col : Int
  to_row : Int
  promotion_type : Int
deriving DecidableEq, Repr

/-- The board state, C struct `SearchState`.  `board r c` is C
`board[r][c]`: the slot index of the piece occupying square `(c, r)`, or
`-1`. -/
structure SearchState where
  piece_count : Int
  piece_type : Int → Int
  piece_color : Int → Int
  piece_col : Int → Int
  piece_row : Int → Int
  piece_moved : Int → Int
  alive : Int → Int
  board : Int → Int → Int
  en_passant_target_col : Int
  en_passant_target_row : Int
  en_passant_capture_col : Int
  en_passant_capture_row : Int
  halfmove_clock : Int

/-- Evaluation parameters, C struct `EvalParams`.  The pawn-rank table is
`Option` because C checks both its presence flag and the pointer for NULL;
`position_multipliers` has no NULL check in C, so it stays a plain
function. -/
structure EvalParams (α : Type) where
  piece_values : Int → α
  pawn_rank_values : Option (Int → α)
  has_pawn_rank_values : Bool
  backward_pawn_value : α
  has_backward_pawn_value : Bool
  position_multipliers : Int → α
  has_position_multipliers : Bool
  control_weight : α
  opposite_bishop_draw_factor : α
  has_opposite_bishop_draw_factor : Bool

/-- C `is_inside`. -/
def is_inside (col row : Int) : Prop :=
  0 ≤ col ∧ col < 8 ∧ 0 ≤ row ∧ row < 8

instance is_inside_dec (col row : Int) : Decidable (is_inside col row) := by
  unfold is_inside; exact inferInstance

/-- C `opponent_color`. -/
def opponent_color (color : Int) : Int :=
  if color = 0 then 1 else 0

/-- C `is_corner_square`. -/
def is_corner_square (col row : Int) : Prop :=
  (col = 0 ∨ col = 7) ∧ (row = 0 ∨ row = 7)

instance is_corner_square_dec (col row : Int) : Decidable (is_corner_square col row) := by
  unfold is_corner_square; exact inferInstance

/-- C `is_corner_touch_square`. -/
def is_corner_touch_square (col row : Int) : Prop :=
  ((col = 1 ∨ col = 6) ∧ (row = 0 ∨ row = 7)) ∨ ((row = 1 ∨ row = 6) ∧ (col = 0 ∨ col = 7))

instance is_corner_touch_square_dec (col row : Int) :
    Decidable (is_corner_touch_square col row) := by
  unfold is_corner_touch_square; exact inferInstance

/-- C `is_center_square`. -/
def is_center_square (col row : Int) : Prop :=
  (col = 3 ∨ col = 4) ∧ (row = 3 ∨ row = 4)

instance is_center_square_dec (col row : Int) : Decidable (is_center_square col row) := by
  unfold is_center_square; exact inferInstance

/-- C `is_center_cross_square`. -/
def is_center_cross_square (col row : Int) : Prop :=
  (col = 2 ∧ (row = 3 ∨ row = 4))
  ∨ (col = 3 ∧ (row = 2 ∨ row = 5))
  ∨ (col = 4 ∧ (row = 2 ∨ row = 5))
  ∨ (col = 5 ∧ (row = 3 ∨ row = 4))

instance is_center_cross_square_dec (col row : Int) :
    Decidable (is_center_cross_square col row) := by
  unfold is_center_cross_square; exact inferInstance

/-- C `is_center_diagonal_square`. -/
def is_center_diagonal_square (col row : Int) : Prop :=
  (col = 2 ∨ col = 5) ∧ (row = 2 ∨ row = 5)

instance is_center_diagonal_square_dec (col row : Int) :
    Decidable (is_center_diagonal_square col row) := by
  unfold is_center_diagonal_square; exact inferInstance

section ScoreArithmetic

variable {α : Type} [LinearOrderedCommRing α]

/-- C `square_weight_for_piece` (PIECE_ROOK = 3). -/
def square_weight_for_piece (piece_type col row : Int) (pm : Int → α) (has_pm : Bool) : α :=
  if has_pm then
    if is_corner_square col row then (if piece_type = 3 then pm 4 else pm 3)
    else if is_corner_touch_square col row then (if piece_type = 3 then pm 6 else pm 5)
    else if is_center_square col row then pm 0
    else if is_center_cross_square col row then pm 1
    else if is_center_diagonal_square col row then pm 2
    else 1
  else 1

/-- C `compare_score`: lexicographic comparison, material first. -/
def compare_score (a b : Score α) : Int :=
  if a.material < b.material then -1
  else if b.material < a.material then 1
  else if a.heuristic < b.heuristic then -1
  else if b.heuristic < a.heuristic then 1
  else 0

/-- C `score_for_winner`. -/
def score_for_winner (winner perspective_color : Int) : Score α :=
  ⟨if winner = perspective_color then 100000 else -100000, 0⟩

/-- C `draw_score`. -/
def draw_score : Score α := ⟨0, 0⟩

/-- The C search sentinel literal `1e300`, modelled as the exact power
`10 ^ 300` (the double rounds this value; no reachable score comes anywhere
near either). -/
def huge : α := 10 ^ 300

end ScoreArithmetic

/-- The list of piece-slot indices `0 .. piece_count-1` that every C loop
over the piece arrays ranges over. -/
def pieceIdxs (s : SearchState) : List Int :=
  (List.range s.piece_count.toNat).map (fun k => (k : Int))

/-- C `init_state` placement loop for the first `n` pieces: validates each
piece (coordinates inside the board, kind in 0..5, color in 0..1, square not
already occupied) and builds the occupancy grid, failing like C does on the
first violation. -/
def init_board_loop (tys cls cf rf : Int → Int) : Nat → Option (Int → Int → Int)
  | 0 => some (fun _ _ => -1)
  | k+1 =>
    match init_board_loop tys cls cf rf k with
    | none => none
    | some b =>
      let i : Int := (k : Int)
      if is_inside (cf i) (rf i) ∧ (0 ≤ tys i ∧ tys i ≤ 5) ∧ (cls i = 0 ∨ cls i = 1)
          ∧ b (rf i) (cf i) = -1 then
        some (fun r2 c2 => if r2 = rf i ∧ c2 = cf i then i else b r2 c2)
      else none

/-- C `init_state`.  A `none` piece_moved array means all pieces unmoved, as
in C.  C leaves the per-piece arrays above `piece_count` uninitialized and
never reads them; the model simply keeps the input functions there (and
`alive` constantly 1). -/
def init_state (tys cls cf rf : Int → Int) (moved : Option (Int → Int)) (piece_count : Int)
    (ep_tc ep_tr ep_cc ep_cr hm : Int) : Option SearchState :=
  if piece_count < 0 ∨ 64 < piece_count then none
  else
    match init_board_loop tys cls cf rf piece_count.toNat with
    | none => none
    | some b =>
      some {
        piece_count := piece_count
        piece_type := tys
        piece_color := cls
        piece_col := cf
        piece_row := rf
        piece_moved := fun i => match moved with | some mf => mf i | none => 0
        alive := fun _ => 1
        board := b
        en_passant_target_col := ep_tc
        en_passant_target_row := ep_tr
        en_passant_capture_col := ep_cc
        en_passant_capture_row := ep_cr
        halfmove_clock := hm }

/-- C `append_move`: the move list is capped at 256 entries, overflow is
silently dropped. -/
def append_move (l : List Move) (m : Move) : List Move :=
  if 256 ≤ l.length then l else l ++ [m]

/-- The forward-push section of the PIECE_PAWN branch of C
`generate_moves_for_piece`: single push (queen promotion on the last rank)
and double push for an unmoved pawn. -/
def pawn_push_moves (s : SearchState) (i : Int) (l : List Move) : List Move :=
  let pc := s.piece_color i
  let col := s.piece_col i
  let row := s.piece_row i
  let direction : Int := if pc = 0 then 1 else -1
  let one_forward := row + direction
  if is_inside col one_forward ∧ s.board one_forward col = -1 then
    let promotion : Int := if one_forward = 0 ∨ one_forward = 7 then 4 else -1
    let l := append_move l ⟨col, row, col, one_forward, promotion⟩
    let two_forward := row + 2 * direction
    if s.piece_moved i = 0 ∧ is_inside col two_forward ∧ s.board two_forward col = -1 then
      append_move l ⟨col, row, col, two_forward, -1⟩
    else l
  else l

/-- One diagonal of the PIECE_PAWN branch of C `generate_moves_for_piece`
(the C `capture_branch` lambda): an ordinary capture or else an en-passant
capture. -/
def pawn_capture_branch (s : SearchState) (i : Int) (l : List Move) (delta_col : Int) :
    List Move :=
  let pc := s.piece_color i
  let col := s.piece_col i
  let row := s.piece_row i
  let direction : Int := if pc = 0 then 1 else -1
  let capture_col := col + delta_col
  let capture_row := row + direction
  if is_inside capture_col capture_row then
    let ti := s.board capture_row capture_col
    if ti ≠ -1 ∧ s.alive ti ≠ 0 ∧ s.piece_color ti ≠ pc then
      append_move l
        ⟨col, row, capture_col, capture_row,
          if capture_row = 0 ∨ capture_row = 7 then 4 else -1⟩
    else if s.en_passant_target_col = capture_col ∧ s.en_passant_target_row = capture_row
        ∧ s.board capture_row capture_col = -1
        ∧ is_inside s.en_passant_capture_col s.en_passant_capture_row then
      let ci := s.board s.en_passant_capture_row s.en_passant_capture_col
      if ci ≠ -1 ∧ s.alive ci ≠ 0 ∧ s.piece_type ci = 0 ∧ s.piece_color ci ≠ pc
          ∧ s.en_passant_capture_col = capture_col ∧ s.en_passant_capture_row = row then
        append_move l ⟨col, row, capture_col, capture_row, -1⟩
      else l
    else l
  else l

/-- Pawn-move generation, the PIECE_PAWN branch of C
`generate_moves_for_piece`: single push (queen promotion on the last rank),
double push for an unmoved pawn, and for each diagonal an ordinary capture
or else an en-passant capture. -/
def pawn_moves (s : SearchState) (i : Int) (l : List Move) : List Move :=
  pawn_capture_branch s i (pawn_capture_branch s i (pawn_push_moves s i l) (-1)) 1

/-- The eight knight jumps in C source order. -/
def knight_offsets : List (Int × Int) :=
  [(-2, -1), (-2, 1), (-1, -2), (-1, 2), (1, -2), (1, 2), (2, -1), (2, 1)]

/-- Knight-move generation, the PIECE_KNIGHT branch of C
`generate_moves_for_piece`. -/
def knight_moves (s : SearchState) (i : Int) (l : List Move) : List Move :=
  let pc := s.piece_color i
  let col := s.piece_col i
  let row := s.piece_row i
  knight_offsets.foldl (fun l off =>
    let tc := col + off.1
    let tr := row + off.2
    if is_inside tc tr then
      let ti := s.board tr tc
      if ti = -1 ∨ s.piece_color ti ≠ pc then append_move l ⟨col, row, tc, tr, -1⟩ else l
    else l) l

/-- One sliding ray of C `generate_moves_for_piece`: walk from `(tc, tr)` in
direction `(d_col, d_row)`, emitting empty squares and stopping at the first
occupied square (emitted if enemy).  The C `while (is_inside ...)` loop runs
at most 8 times (any inside start leaves the board after at most 7 unit
steps), so fuel 8 reproduces it exactly. -/
def slide_ray (s : SearchState) (pc col row d_col d_row : Int) :
    Nat → Int → Int → List Move → List Move
  | 0, _, _, l => l
  | fuel+1, tc, tr, l =>
    if is_inside tc tr then
      let ti := s.board tr tc
      if ti = -1 then
        slide_ray s pc col row d_col d_row fuel (tc + d_col) (tr + d_row)
          (append_move l ⟨col, row, tc, tr, -1⟩)
      else if s.piece_color ti ≠ pc then append_move l ⟨col, row, tc, tr, -1⟩
      else l
    else l

/-- The four diagonal ray directions in C source order. -/
def bishop_dirs : List (Int × Int) := [(-1, -1), (-1, 1), (1, -1), (1, 1)]

/-- The four orthogonal ray directions in C source order. -/
def rook_dirs : List (Int × Int) := [(-1, 0), (1, 0), (0, -1), (0, 1)]

/-- Bishop/rook/queen generation, the sliding branch of C
`generate_moves_for_piece` (PIECE_BISHOP = 2, PIECE_ROOK = 3,
PIECE_QUEEN = 4). -/
def slider_moves (s : SearchState) (i : Int) (l : List Move) : List Move :=
  let t := s.piece_type i
  let pc := s.piece_color i
  let col := s.piece_col i
  let row := s.piece_row i
  let l :=
    if t = 2 ∨ t = 4 then
      bishop_dirs.foldl (fun l d =>
        slide_ray s pc col row d.1 d.2 8 (col + d.1) (row + d.2) l) l
    else l
  if t = 3 ∨ t = 4 then
    rook_dirs.foldl (fun l d =>
      slide_ray s pc col row d.1 d.2 8 (col + d.1) (row + d.2) l) l
  else l

/-- The eight one-step king offsets in C source order (d_col outer loop,
d_row inner loop, skipping (0,0)). -/
def king_offsets : List (Int × Int) :=
  [(-1, -1), (-1, 0), (-1, 1), (0, -1), (0, 1), (1, -1), (1, 0), (1, 1)]

/-- The eight single steps of the PIECE_KING branch of C
`generate_moves_for_piece`. -/
def king_step_moves (s : SearchState) (i : Int) (l : List Move) : List Move :=
  let pc := s.piece_color i
  let col := s.piece_col i
  let row := s.piece_row i
  king_offsets.foldl (fun l off =>
    let tc := col + off.1
    let tr := row + off.2
    if is_inside tc tr then
      let ti := s.board tr tc
      if ti = -1 ∨ s.piece_color ti ≠ pc then append_move l ⟨col, row, tc, tr, -1⟩ else l
    else l) l

/-- King-move generation, the PIECE_KING branch of C
`generate_moves_for_piece`: eight single steps, then kingside and queenside
castling for an unmoved king on its home square. -/
def king_moves (s : SearchState) (i : Int) (l : List Move) : List Move :=
  let pc := s.piece_color i
  let col := s.piece_col i
  let row := s.piece_row i
  let l := king_step_moves s i l
  if s.piece_moved i = 0 then
    let home_row : Int := if pc = 0 then 0 else 7
    if col = 4 ∧ row = home_row then
      let kr := s.board home_row 7
      let l :=
        if kr ≠ -1 ∧ s.alive kr ≠ 0 ∧ s.piece_type kr = 3 ∧ s.piece_color kr = pc
            ∧ s.piece_moved kr = 0 ∧ s.board home_row 5 = -1 ∧ s.board home_row 6 = -1 then
          append_move l ⟨4, home_row, 6, home_row, -1⟩
        else l
      let qr := s.board home_row 0
      if qr ≠ -1 ∧ s.alive qr ≠ 0 ∧ s.piece_type qr = 3 ∧ s.piece_color qr = pc
          ∧ s.piece_moved qr = 0 ∧ s.board home_row 1 = -1 ∧ s.board home_row 2 = -1
          ∧ s.board home_row 3 = -1 then
        append_move l ⟨4, home_row, 2, home_row, -1⟩
      else l
    else l
  else l

/-- C `generate_moves_for_piece`: dispatch on the piece kind; dead pieces and
unknown kinds generate nothing. -/
def generate_moves_for_piece (s : SearchState) (i : Int) (l : List Move) : List Move :=
  if s.alive i = 0 then l
  else
    let t := s.piece_type i
    if t = 0 then pawn_moves s i l
    else if t = 1 then knight_moves s i l
    else if t = 2 ∨ t = 3 ∨ t = 4 then slider_moves s i l
    else if t = 5 then king_moves s i l
    else l

/-- C `generate_legal_moves_for_color`: all pseudo-legal moves of the alive
pieces of `color`, in slot order. -/
def generate_legal_moves_for_color (s : SearchState) (color : Int) : List Move :=
  (pieceIdxs s).foldl (fun l i =>
    if s.alive i ≠ 0 ∧ s.piece_color i = color then generate_moves_for_piece s i l else l) []

/-- Step 3 of C `apply_move` as a board transformer: clear the source
square and put the moved piece `pi` on the destination square. -/
def king_moved_board (m : Move) (pi : Int) (board1 : Int → Int → Int) : Int → Int → Int :=
  fun r c =>
    if r = m.to_row ∧ c = m.to_col then pi
    else if r = m.from_row ∧ c = m.from_col then -1
    else board1 r c

/-- Step 4 of C `apply_move`: the piece-kind array after promotion (the
moved piece's kind becomes the promotion field when that is at least
PAWN, else QUEEN, whenever a pawn reaches the last rank). -/
def promoted_types (s : SearchState) (m : Move) (pi piece_type : Int) : Int → Int :=
  if piece_type = 0 ∧ (m.to_row = 0 ∨ m.to_row = 7) then
    fun j => if j = pi then (if 0 ≤ m.promotion_type then m.promotion_type else 4)
             else s.piece_type j
  else s.piece_type

/-- The corner column read by the castling rook transit of C `apply_move`
(7 for a kingside move, 0 for a queenside one). -/
def castle_corner (m : Move) : Int := if m.from_col < m.to_col then 7 else 0

/-- The column the transiting rook is written to (5 kingside,
3 queenside). -/
def castle_tdest (m : Move) : Int := if m.from_col < m.to_col then 5 else 3

/-- The guard of step 5 of C `apply_move`: the moved piece is a king
displaced two columns, and the corner square of the starting row (read
after the king has been placed) holds an alive rook. -/
def rook_transit_fires (s : SearchState) (m : Move) (pi piece_type : Int)
    (alive1 : Int → Int) (board1 : Int → Int → Int) : Prop :=
  (piece_type = 5 ∧ (m.to_col - m.from_col = 2 ∨ m.to_col - m.from_col = -2))
  ∧ king_moved_board m pi board1 m.from_row (castle_corner m) ≠ -1
  ∧ alive1 (king_moved_board m pi board1 m.from_row (castle_corner m)) ≠ 0
  ∧ promoted_types s m pi piece_type
      (king_moved_board m pi board1 m.from_row (castle_corner m)) = 3

instance rook_transit_fires_dec (s : SearchState) (m : Move) (pi piece_type : Int)
    (alive1 : Int → Int) (board1 : Int → Int → Int) :
    Decidable (rook_transit_fires s m pi piece_type alive1 board1) := by
  unfold rook_transit_fires; exact inferInstance

/-- Steps 3-8 of C `apply_move`, after the capture handling: relocate the
moved piece, promote a pawn on the last rank, do the castling rook transit,
set the moved flag, rebuild the en-passant window and update the halfmove
clock.  `alive1`/`board1` are the arrays after capture removal and
`is_capture` the C flag of the same name. -/
def apply_finish (s : SearchState) (m : Move) (pi piece_type piece_color : Int)
    (alive1 : Int → Int) (board1 : Int → Int → Int) (is_capture : Bool) : SearchState :=
  let board3 : Int → Int → Int := king_moved_board m pi board1
  let col1 : Int → Int := fun j => if j = pi then m.to_col else s.piece_col j
  let row1 : Int → Int := fun j => if j = pi then m.to_row else s.piece_row j
  let type1 : Int → Int := promoted_types s m pi piece_type
  let corner : Int := castle_corner m
  let tdest : Int := castle_tdest m
  let ri := board3 m.from_row corner
  let rook_ok := rook_transit_fires s m pi piece_type alive1 board1
  let board4 : Int → Int → Int :=
    if rook_ok then
      fun r c =>
        if r = m.from_row ∧ c = tdest then ri
        else if r = m.from_row ∧ c = corner then -1
        else board3 r c
    else board3
  let col2 : Int → Int := if rook_ok then (fun j => if j = ri then tdest else col1 j) else col1
  let row2 : Int → Int :=
    if rook_ok then (fun j => if j = ri then m.from_row else row1 j) else row1
  let moved1 : Int → Int :=
    if rook_ok then (fun j => if j = ri then 1 else s.piece_moved j) else s.piece_moved
  let moved2 : Int → Int := fun j => if j = pi then 1 else moved1 j
  let dr := m.to_row - m.from_row
  let ep_set := piece_type = 0 ∧ (dr = 2 ∨ dr = -2)
  { piece_count := s.piece_count
    piece_type := type1
    piece_color := s.piece_color
    piece_col := col2
    piece_row := row2
    piece_moved := moved2
    alive := alive1
    board := board4
    en_passant_target_col := if ep_set then m.from_col else -1
    en_passant_target_row := if ep_set then (m.from_row + m.to_row).tdiv 2 else -1
    en_passant_capture_col := if ep_set then m.to_col else -1
    en_passant_capture_row := if ep_set then m.to_row else -1
    halfmove_clock :=
      if piece_type = 0 ∨ is_capture then 0 else s.halfmove_clock + 1 }

/-- C `apply_move`: validate coordinates and the source square, remove an
en-passant victim or an ordinary capture victim, then finish via
`apply_finish`.  `none` is C status 0 (reject); all rejects happen before
any mutation, matching C. -/
def apply_move (s : SearchState) (m : Move) : Option SearchState :=
  if ¬ (is_inside m.from_col m.from_row ∧ is_inside m.to_col m.to_row) then none
  else
    let pi := s.board m.from_row m.from_col
    if pi = -1 ∨ s.alive pi = 0 then none
    else
      let piece_type := s.piece_type pi
      let piece_color := s.piece_color pi
      let ti := s.board m.to_row m.to_col
      let is_ep :=
        piece_type = 0 ∧ ti = -1 ∧ m.from_col ≠ m.to_col
        ∧ s.en_passant_target_col = m.to_col ∧ s.en_passant_target_row = m.to_row
        ∧ is_inside s.en_passant_capture_col s.en_passant_capture_row
      if is_ep then
        let ci := s.board s.en_passant_capture_row s.en_passant_capture_col
        if ci = -1 ∨ s.alive ci = 0 ∨ s.piece_type ci ≠ 0 ∨ s.piece_color ci = piece_color then
          none
        else
          some (apply_finish s m pi piece_type piece_color
            (fun j => if j = ci then 0 else s.alive j)
            (fun r c =>
              if r = s.en_passant_capture_row ∧ c = s.en_passant_capture_col then -1
              else s.board r c)
            true)
      else if ti ≠ -1 then
        if s.alive ti = 0 ∨ s.piece_color ti = piece_color then none
        else
          some (apply_finish s m pi piece_type piece_color
            (fun j => if j = ti then 0 else s.alive j)
            (fun r c => if r = m.to_row ∧ c = m.to_col then -1 else s.board r c)
            true)
      else some (apply_finish s m pi piece_type piece_color s.alive s.board false)

/-- C `is_backward_pawn_state`: the pawn is backward iff the square directly
ahead is on the board, no friendly pawn on an adjacent file sits at or ahead
of the pawn's row (ahead = higher row for white, lower for black: C rejects
on `piece_row[i] >= pawn_row` for white and `<=` for black), and some enemy
pawn attacks the square directly ahead.  The C loops with early `return 0` /
`return 1` are exactly bounded existentials over the piece slots. -/
def is_backward_pawn_state (s : SearchState) (pawn_index : Int) : Bool :=
  if s.alive pawn_index = 0 ∨ s.piece_type pawn_index ≠ 0 then false
  else
    let pc := s.piece_color pawn_index
    let col := s.piece_col pawn_index
    let row := s.piece_row pawn_index
    let direction : Int := if pc = 0 then 1 else -1
    let forward_row := row + direction
    if ¬ is_inside col forward_row then false
    else if ([-1, 1] : List Int).any (fun delta =>
        let ac := col + delta
        decide (0 ≤ ac ∧ ac ≤ 7) &&
        (pieceIdxs s).any (fun i =>
          decide (s.alive i ≠ 0 ∧ s.piece_type i = 0 ∧ s.piece_color i = pc
            ∧ s.piece_col i = ac
            ∧ ((pc = 0 ∧ row ≤ s.piece_row i) ∨ (pc = 1 ∧ s.piece_row i ≤ row))))) then
      false
    else
      let opposing := opponent_color pc
      (pieceIdxs s).any (fun i =>
        decide (s.alive i ≠ 0 ∧ s.piece_type i = 0 ∧ s.piece_color i = opposing
          ∧ s.piece_row i + (if opposing = 0 then 1 else -1) = forward_row
          ∧ (s.piece_col i - 1 = col ∨ s.piece_col i + 1 = col)))

/-- C `has_opposite_color_bishops_state`: each side has exactly one alive
bishop and the two bishops stand on squares of different colors.  C keeps
the last seen index per color together with a count; with count 1 that index
is the unique one, which the singleton-list match expresses. -/
def has_opposite_color_bishops_state (s : SearchState) : Bool :=
  let wbs := (pieceIdxs s).filter (fun i =>
    decide (s.alive i ≠ 0 ∧ s.piece_type i = 2 ∧ s.piece_color i = 0))
  let bbs := (pieceIdxs s).filter (fun i =>
    decide (s.alive i ≠ 0 ∧ s.piece_type i = 2 ∧ s.piece_color i ≠ 0))
  match wbs, bbs with
  | [w], [b] =>
    decide ((s.piece_col w + s.piece_row w).tmod 2 ≠ (s.piece_col b + s.piece_row b).tmod 2)
  | _, _ => false

section Engine

variable {α : Type} [LinearOrderedCommRing α]

/-- One iteration of the piece loop of C `control_score`: the sum of the
square weights of all pseudo-legal destinations of piece `i`, signed by
perspective and added to the running total. -/
def control_piece_step (s : SearchState) (perspective_color : Int) (p : EvalParams α)
    (tot : α) (i : Int) : α :=
  if s.alive i = 0 then tot
  else
    let moves := generate_moves_for_piece s i []
    let t := s.piece_type i
    let controlled := moves.foldl (fun acc mv =>
      acc + square_weight_for_piece t mv.to_col mv.to_row
        p.position_multipliers p.has_position_multipliers) 0
    if s.piece_color i = perspective_color then tot + controlled else tot - controlled

/-- C `control_score`: for each alive piece, the sum of the square weights of
all its pseudo-legal destinations, signed by perspective. -/
def control_score (s : SearchState) (perspective_color : Int) (p : EvalParams α) : α :=
  (pieceIdxs s).foldl (control_piece_step s perspective_color p) 0

/-- One iteration of the piece loop of C `evaluate_state`: compute the
piece's material value and positional score (pawn-rank max, backward-pawn
min, square weight) and add the signed contributions to the accumulator. -/
def evaluate_piece_step (s : SearchState) (perspective_color : Int) (p : EvalParams α)
    (sc : Score α) (i : Int) : Score α :=
  if s.alive i = 0 then sc
  else
    let t := s.piece_type i
    let c := s.piece_color i
    let material_score := p.piece_values t
    let ps0 := material_score
    let ps1 :=
      if t = 0 then
        let psr :=
          match p.pawn_rank_values with
          | some prv =>
            if p.has_pawn_rank_values then
              let pawn_rank := if c = 0 then s.piece_row i + 1 else 8 - s.piece_row i
              if ps0 < prv pawn_rank then prv pawn_rank else ps0
            else ps0
          | none => ps0
        if p.has_backward_pawn_value ∧ is_backward_pawn_state s i = true
            ∧ p.backward_pawn_value < psr then
          p.backward_pawn_value
        else psr
      else ps0
    let ps2 := ps1 * square_weight_for_piece t (s.piece_col i) (s.piece_row i)
      p.position_multipliers p.has_position_multipliers
    let hs := ps2 - material_score
    if c = perspective_color then ⟨sc.material + material_score, sc.heuristic + hs⟩
    else ⟨sc.material - material_score, sc.heuristic - hs⟩

/-- C `evaluate_state`: material and heuristic from the given perspective,
with pawn-rank max, backward-pawn min, square weights, the control term and
the opposite-bishop damping. -/
def evaluate_state (s : SearchState) (perspective_color : Int) (p : EvalParams α) : Score α :=
  let base := (pieceIdxs s).foldl (evaluate_piece_step s perspective_color p) ⟨0, 0⟩
  let withCtl :=
    if p.control_weight ≠ 0 then
      ⟨base.material, base.heuristic + p.control_weight * control_score s perspective_color p⟩
    else base
  if p.has_opposite_bishop_draw_factor ∧ has_opposite_color_bishops_state s = true then
    ⟨withCtl.material, withCtl.heuristic * p.opposite_bishop_draw_factor⟩
  else withCtl

/-- C `hash_mix`, on `uint64_t` values modelled as naturals below `2 ^ 64`. -/
def hash_mix (h v : Nat) : Nat :=
  h ^^^ ((v + 0x9e3779b97f4a7c15 + h * 2 ^ 6 + h / 2 ^ 2) % 2 ^ 64)

/-- C cast of an `int` to `uint64_t` (wraps mod `2 ^ 64`). -/
def u64ofInt (x : Int) : Nat := (x % (2 ^ 64 : Int)).toNat

/-- A `uint64_t` left shift (wraps mod `2 ^ 64`). -/
def shl64 (a : Nat) (k : Nat) : Nat := (a <<< k) % 2 ^ 64

/-- C `hash_state`: FNV offset basis, then mix every board square (0 when
empty, a biased packing of kind/color/moved/col/row otherwise), the four
en-passant fields biased by 1, the halfmove clock, the active color and the
remaining plies. -/
def hash_state (s : SearchState) (active_color : Int) (remaining_plies : Nat) : Nat :=
  let h1 := (List.range 8).foldl (fun h (r : Nat) =>
    (List.range 8).foldl (fun h (c : Nat) =>
      let pi := s.board (Int.ofNat r) (Int.ofNat c)
      if pi = -1 ∨ s.alive pi = 0 then hash_mix h 0
      else
        let bits := u64ofInt (s.piece_type pi)
          ||| shl64 (u64ofInt (s.piece_color pi)) 3
          ||| shl64 (if s.piece_moved pi ≠ 0 then 1 else 0) 4
          ||| shl64 c 8
          ||| shl64 r 16
        hash_mix h (bits + 1)) h) 1469598103934665603
  let ep_bits := u64ofInt (s.en_passant_target_col + 1)
    ||| shl64 (u64ofInt (s.en_passant_target_row + 1)) 4
    ||| shl64 (u64ofInt (s.en_passant_capture_col + 1)) 8
    ||| shl64 (u64ofInt (s.en_passant_capture_row + 1)) 12
  let h2 := hash_mix h1 ep_bits
  let h3 := hash_mix h2 (u64ofInt s.halfmove_clock)
  let h4 := hash_mix h3 (u64ofInt active_color)
  hash_mix h4 remaining_plies

/-- One transposition-cache bucket, C struct `CacheEntry`; the C `valid`
flag is the `Option` in `SearchCache.entries`. -/
structure CacheEntry (α : Type) where
  key : Nat
  remaining_plies : Nat
  active_color : Int
  material : α
  heuristic : α

/-- C struct `SearchCache`: a power-of-two capacity and one bucket per
index (calloc zero-fill = all `none`).  A NULL cache handle or NULL entries
pointer is the `none` case of `Option SearchCache` at the call sites. -/
structure SearchCache (α : Type) where
  capacity : Nat
  entries : Nat → Option (CacheEntry α)

/-- C `cache_lookup`: hit only when the bucket is valid and key, active
color and remaining plies all match exactly. -/
def cache_lookup (cache : Option (SearchCache α)) (key : Nat) (active_color : Int)
    (remaining_plies : Nat) : Option (Score α) :=
  match cache with
  | none => none
  | some c =>
    if c.capacity = 0 then none
    else
      match c.entries (key &&& (c.capacity - 1)) with
      | none => none
      | some e =>
        if e.key = key ∧ e.active_color = active_color
            ∧ e.remaining_plies = remaining_plies then
          some ⟨e.material, e.heuristic⟩
        else none

/-- C `cache_store`: unconditionally overwrite the bucket. -/
def cache_store (cache : Option (SearchCache α)) (key : Nat) (active_color : Int)
    (remaining_plies : Nat) (sc : Score α) : Option (SearchCache α) :=
  match cache with
  | none => none
  | some c =>
    if c.capacity = 0 then some c
    else
      some ⟨c.capacity, fun j =>
        if j = key &&& (c.capacity - 1) then
          some ⟨key, remaining_plies, active_color, sc.material, sc.heuristic⟩
        else c.entries j⟩

/-- C `get_game_status_state`, returning `(status, winner)` with
status 0 = in progress, 1 = draw, 2 = win: a side missing its king loses,
both missing is a draw, halfmove clock at 100 is a draw, no pseudo-legal
move for the active color is a draw. -/
def get_game_status_state (s : SearchState) (active_color : Int) : Int × Int :=
  let wk := (pieceIdxs s).any (fun i =>
    decide (s.alive i ≠ 0 ∧ s.piece_type i = 5 ∧ s.piece_color i = 0))
  let bk := (pieceIdxs s).any (fun i =>
    decide (s.alive i ≠ 0 ∧ s.piece_type i = 5 ∧ s.piece_color i ≠ 0))
  if !wk && !bk then (1, -1)
  else if !wk then (2, 1)
  else if !bk then (2, 0)
  else if 100 ≤ s.halfmove_clock then (1, -1)
  else if (generate_legal_moves_for_color s active_color).length = 0 then (1, -1)
  else (0, -1)

/-- C `minimax_score_state`, with the cache threaded explicitly (C mutates
it in place): consult the cache, settle terminal states, evaluate at depth
0, otherwise recurse over the active color's moves, maximizing when the
active color is the perspective and minimizing otherwise, skipping children
the move applier rejects, and store the result. -/
def minimax_score_state (rem : Nat) (s : SearchState) (active_color perspective_color : Int)
    (p : EvalParams α) (cache : Option (SearchCache α)) : Score α × Option (SearchCache α) :=
  let key := hash_state s active_color rem
  match cache_lookup cache key active_color rem with
  | some sc => (sc, cache)
  | none =>
    let st := get_game_status_state s active_color
    if st.1 = 2 then
      let sc := score_for_winner st.2 perspective_color
      (sc, cache_store cache key active_color rem sc)
    else if st.1 = 1 then
      (draw_score, cache_store cache key active_color rem draw_score)
    else
      match rem with
      | 0 =>
        let sc := evaluate_state s perspective_color p
        (sc, cache_store cache key active_color 0 sc)
      | rem1+1 =>
        let moves := generate_legal_moves_for_color s active_color
        if moves.length = 0 then
          (draw_score, cache_store cache key active_color (rem1+1) draw_score)
        else
          let next_color := opponent_color active_color
          if active_color = perspective_color then
            let r := moves.foldl (fun (acc : Score α × Option (SearchCache α)) mv =>
              match apply_move s mv with
              | none => acc
              | some child =>
                let rr := minimax_score_state rem1 child next_color perspective_color p acc.2
                (if 0 < compare_score rr.1 acc.1 then rr.1 else acc.1, rr.2))
              (⟨-huge, -huge⟩, cache)
            (r.1, cache_store r.2 key active_color (rem1+1) r.1)
          else
            let r := moves.foldl (fun (acc : Score α × Option (SearchCache α)) mv =>
              match apply_move s mv with
              | none => acc
              | some child =>
                let rr := minimax_score_state rem1 child next_color perspective_color p acc.2
                (if compare_score rr.1 acc.1 < 0 then rr.1 else acc.1, rr.2))
              (⟨huge, huge⟩, cache)
            (r.1, cache_store r.2 key active_color (rem1+1) r.1)

/-- Result of `choose_best_move_c`: the returned status, the four move
output slots (written only on success, `none` = untouched), and the cache
after the call. -/
structure BestMoveResult (α : Type) where
  status : Int
  move_out : Option (Int × Int × Int × Int)
  cache_out : Option (SearchCache α)

/-- C `choose_best_move_c`.  Nullable host pointers are `Option`s; the four
output pointers are collapsed into the single `outs_present` flag since C
rejects when any of them is NULL.  Status 0 = validation failure,
2 = no legal moves, 1 = success with the chosen move written out. -/
def choose_best_move_c
    (piece_types piece_colors piece_cols piece_rows piece_moved : Option (Int → Int))
    (piece_count active_color : Int) (plies : Int)
    (piece_values : Option (Int → α))
    (pawn_rank_values : Option (Int → α)) (has_pawn_rank_values : Bool)
    (backward_pawn_value : α) (has_backward_pawn_value : Bool)
    (position_multipliers : Int → α) (has_position_multipliers : Bool)
    (control_weight : α)
    (opposite_bishop_draw_factor : α) (has_opposite_bishop_draw_factor : Bool)
    (ep_tc ep_tr ep_cc ep_cr halfmove_clock : Int)
    (outs_present : Bool)
    (cache : Option (SearchCache α)) : BestMoveResult α :=
  match piece_types, piece_colors, piece_cols, piece_rows, piece_moved, piece_values with
  | some tys, some cls, some cf, some rf, some mf, some pv =>
    if !outs_present then ⟨0, none, cache⟩
    else if ¬ (active_color = 0 ∨ active_color = 1) then ⟨0, none, cache⟩
    else
      match init_state tys cls cf rf (some mf) piece_count ep_tc ep_tr ep_cc ep_cr
          halfmove_clock with
      | none => ⟨0, none, cache⟩
      | some root =>
        let moves := generate_legal_moves_for_color root active_color
        if moves.length = 0 then ⟨2, none, cache⟩
        else
          let params : EvalParams α :=
            ⟨pv, pawn_rank_values, has_pawn_rank_values, backward_pawn_value,
              has_backward_pawn_value, position_multipliers, has_position_multipliers,
              control_weight, opposite_bishop_draw_factor, has_opposite_bishop_draw_factor⟩
          let next_color := opponent_color active_color
          let rem := (plies - 1).toNat
          let r := moves.enum.foldl (fun (acc : Score α × Nat × Option (SearchCache α)) km =>
            match apply_move root km.2 with
            | none => acc
            | some child =>
              let sc := minimax_score_state rem child next_color active_color params acc.2.2
              if 0 < compare_score sc.1 acc.1 then (sc.1, km.1, sc.2)
              else (acc.1, acc.2.1, sc.2))
            (⟨-huge, -huge⟩, 0, cache)
          let bm := moves.getD r.2.1 ⟨0, 0, 0, 0, 0⟩
          ⟨1, some (bm.from_col, bm.from_row, bm.to_col, bm.to_row), r.2.2⟩
  | _, _, _, _, _, _ => ⟨0, none, cache⟩

end Engine

/-! ## Validity predicates and spec-side characterizations -/

/-- A placeholder state used only as the default of `Option.getD` in closed
statements about concrete positions; every such option is proved `isSome`. -/
def zero_state : SearchState :=
  ⟨0, fun _ => 0, fun _ => 0, fun _ => 0, fun _ => 0, fun _ => 0, fun _ => 0,
    fun _ _ => -1, -1, -1, -1, -1, 0⟩

/-- Elimination principle for a successful `apply_move`: the result is
`apply_finish` applied either after removing one enemy victim `v` (ordinary
or en-passant capture, `is_capture` true) or to the untouched piece arrays
(plain move, `is_capture` false). -/
theorem apply_move_shape {s : SearchState} {m : Move} {s' : SearchState}
    (h : apply_move s m = some s') :
    (∃ v b1, s.alive v ≠ 0 ∧
      s.piece_color v ≠ s.piece_color (s.board m.from_row m.from_col) ∧
      s' = apply_finish s m (s.board m.from_row m.from_col)
            (s.piece_type (s.board m.from_row m.from_col))
            (s.piece_color (s.board m.from_row m.from_col))
            (fun j => if j = v then 0 else s.alive j) b1 true) ∨
    s' = apply_finish s m (s.board m.from_row m.from_col)
          (s.piece_type (s.board m.from_row m.from_col))
          (s.piece_color (s.board m.from_row m.from_col)) s.alive s.board false := by
  simp only [apply_move] at h
  split at h
  · exact absurd h (by simp)
  · split at h
    · exact absurd h (by simp)
    · split at h
      · split at h
        · exact absurd h (by simp)
        · rename_i hep hrej
          rw [Option.some_inj] at h
          push_neg at hrej
          exact Or.inl ⟨_, _, hrej.2.1, hrej.2.2.2, h.symm⟩
      · split at h
        · split at h
          · exact absurd h (by simp)
          · rename_i hnep hti hrej
            rw [Option.some_inj] at h
            push_neg at hrej
            exact Or.inl ⟨_, _, hrej.1, hrej.2, h.symm⟩
        · rw [Option.some_inj] at h
          exact Or.inr h.symm

/-- C9: after every accepted move the en-passant window is set exactly when
the moved piece is a pawn whose row changed by 2, with target
`(from_col, (from_row+to_row)/2)` and capture `(to_col, to_row)`; every
other accepted move leaves all four fields at the sentinel `-1`. -/
theorem en_passant_window_lifecycle (s : SearchState) (m : Move) (s' : SearchState)
    (h : apply_move s m = some s') :
    ((s.piece_type (s.board m.from_row m.from_col) = 0
        ∧ (m.to_row - m.from_row = 2 ∨ m.to_row - m.from_row = -2)) →
      s'.en_passant_target_col = m.from_col
      ∧ s'.en_passant_target_row = (m.from_row + m.to_row).tdiv 2
      ∧ s'.en_passant_capture_col = m.to_col
      ∧ s'.en_passant_capture_row = m.to_row) ∧
    (¬ (s.piece_type (s.board m.from_row m.from_col) = 0
        ∧ (m.to_row - m.from_row = 2 ∨ m.to_row - m.from_row = -2)) →
      s'.en_passant_target_col = -1 ∧ s'.en_passant_target_row = -1
      ∧ s'.en_passant_capture_col = -1 ∧ s'.en_passant_capture_row = -1) := by
  rcases apply_move_shape h with ⟨v, b1, _, _, rfl⟩ | rfl <;>
      refine ⟨fun hc => ?_, fun hc => ?_⟩
  · simp [apply_finish, if_pos hc]
  · simp [apply_finish, if_neg hc]
  · simp [apply_finish, if_pos hc]
  · simp [apply_finish, if_neg hc]

/-- Concrete instance of C9: an unmoved white pawn double-pushing from
`(4,1)` to `(4,3)` opens the window `target=(4,2)`, `capture=(4,3)`. -/
theorem en_passant_window_lifecycle_witness :
    ((apply_move
        ((init_state (fun _ => 0) (fun _ => 0) (fun _ => 4) (fun _ => 1) none 1
          (-1) (-1) (-1) (-1) 0).getD zero_state) ⟨4, 1, 4, 3, -1⟩).getD zero_state).en_passant_target_col = 4
    ∧ ((apply_move
        ((init_state (fun _ => 0) (fun _ => 0) (fun _ => 4) (fun _ => 1) none 1
          (-1) (-1) (-1) (-1) 0).getD zero_state) ⟨4, 1, 4, 3, -1⟩).getD zero_state).en_passant_target_row = 2 := by
  have h1 : (apply_move
      ((init_state (fun _ => 0) (fun _ => 0) (fun _ => 4) (fun _ => 1) none 1
        (-1) (-1) (-1) (-1) 0).getD zero_state) ⟨4, 1, 4, 3, -1⟩).isSome = true := by decide
  obtain ⟨t, ht⟩ := Option.isSome_iff_exists.mp h1
  have hmain := (en_passant_window_lifecycle _ _ t ht).1 (by constructor <;> decide)
  rw [ht]
  simp only [Option.getD_some]
  exact ⟨hmain.1, hmain.2.1.trans (by decide)⟩

/-- C8: after every accepted move the halfmove clock is 0 when the moved
piece is a pawn or some piece was captured (a piece alive before and dead
after, covering en passant), and otherwise is the old clock plus one. -/
theorem halfmove_clock_update (s : SearchState) (m : Move) (s' : SearchState)
    (h : apply_move s m = some s') :
    ((s.piece_type (s.board m.from_row m.from_col) = 0
        ∨ ∃ v, s.alive v ≠ 0 ∧ s'.alive v = 0) → s'.halfmove_clock = 0) ∧
    (¬ (s.piece_type (s.board m.from_row m.from_col) = 0
        ∨ ∃ v, s.alive v ≠ 0 ∧ s'.alive v = 0) →
      s'.halfmove_clock = s.halfmove_clock + 1) := by
  rcases apply_move_shape h with ⟨v, b1, hv, _, rfl⟩ | rfl
  · refine ⟨fun _ => ?_, fun hc => ?_⟩
    · simp [apply_finish]
    · exact absurd (Or.inr ⟨v, hv, by simp [apply_finish]⟩) hc
  · refine ⟨fun hc => ?_, fun hc => ?_⟩
    · rcases hc with hp | ⟨v, hv, hv2⟩
      · simp [apply_finish, hp]
      · exact absurd hv (by simpa [apply_finish] using hv2)
    · push_neg at hc
      simp [apply_finish, hc.1]

/-- Concrete instance of C8: a pawn push with the clock at 7 resets it
to 0. -/
theorem halfmove_clock_update_witness :
    ((apply_move
        ((init_state (fun _ => 0) (fun _ => 0) (fun _ => 4) (fun _ => 1) none 1
          (-1) (-1) (-1) (-1) 7).getD zero_state) ⟨4, 1, 4, 2, -1⟩).getD zero_state).halfmove_clock = 0 := by
  have h1 : (apply_move
      ((init_state (fun _ => 0) (fun _ => 0) (fun _ => 4) (fun _ => 1) none 1
        (-1) (-1) (-1) (-1) 7).getD zero_state) ⟨4, 1, 4, 2, -1⟩).isSome = true := by decide
  obtain ⟨t, ht⟩ := Option.isSome_iff_exists.mp h1
  rw [ht]
  simp only [Option.getD_some]
  exact (halfmove_clock_update _ _ t ht).1 (Or.inl (by decide))

/-- The concrete C2 counterexample position: a single white pawn on
`(0,6)`, built by a successful `init_state`. -/
def promo_state : SearchState :=
  (init_state (fun _ => 0) (fun _ => 0) (fun _ => 0) (fun _ => 6) none 1
    (-1) (-1) (-1) (-1) 0).getD zero_state

/-- C2 counterexample: the applier accepts the promotion move
`(0,6)→(0,7)` carrying the out-of-range promotion field 6 and stores kind 6
verbatim, not QUEEN (4) as the claim requires for fields above KING (5):
C checks only `promotion_type >= PIECE_PAWN`, with no upper bound. -/
theorem promotion_kind_counterexample :
    (apply_move promo_state ⟨0, 6, 0, 7, 6⟩).map (fun t => t.piece_type 0) = some 6
    ∧ (apply_move promo_state ⟨0, 6, 0, 7, 6⟩).map (fun t => t.piece_type 0) ≠ some 4 := by
  constructor <;> decide

/-- C2 amended: when a pawn lands on row 0 or 7 through an accepted move,
its new kind is the move's promotion field whenever that field is at least
PAWN (0) — including out-of-range values above KING (5), which are stored
verbatim — and QUEEN (4) exactly when the field is negative. -/
theorem promotion_kind_amended (s : SearchState) (m : Move) (s' : SearchState)
    (h : apply_move s m = some s')
    (hp : s.piece_type (s.board m.from_row m.from_col) = 0)
    (hr : m.to_row = 0 ∨ m.to_row = 7) :
    s'.piece_type (s.board m.from_row m.from_col) =
      if 0 ≤ m.promotion_type then m.promotion_type else 4 := by
  rcases apply_move_shape h with ⟨v, b1, _, _, rfl⟩ | rfl <;>
    simp [apply_finish, promoted_types, if_pos (And.intro hp hr)]

/-- Concrete instance of the amended C2: a promotion field of `-1` defaults
to QUEEN (4). -/
theorem promotion_kind_amended_witness :
    ((apply_move promo_state ⟨0, 6, 0, 7, -1⟩).getD zero_state).piece_type 0 = 4 := by
  have h1 : (apply_move promo_state ⟨0, 6, 0, 7, -1⟩).isSome = true := by decide
  obtain ⟨t, ht⟩ := Option.isSome_iff_exists.mp h1
  rw [ht]
  simp only [Option.getD_some]
  have hmain := promotion_kind_amended promo_state ⟨0, 6, 0, 7, -1⟩ t ht (by decide)
    (Or.inr (by decide))
  have hb : promo_state.board (6 : Int) (0 : Int) = 0 := by decide
  rw [hb] at hmain
  rw [hmain]
  decide


/-- C10: a king move of two columns to an empty square is accepted even
when the corner square of the starting row holds no alive rook (empty
square, dead piece, or a piece of another kind): the rook transit is
silently skipped, only the king changes, and no reject is signalled. -/
theorem castle_without_rook (s : SearchState) (m : Move)
    (h1 : is_inside m.from_col m.from_row) (h2 : is_inside m.to_col m.to_row)
    (h3 : s.board m.from_row m.from_col ≠ -1)
    (h4 : s.alive (s.board m.from_row m.from_col) ≠ 0)
    (h5 : s.piece_type (s.board m.from_row m.from_col) = 5)
    (h6 : m.to_col - m.from_col = 2 ∨ m.to_col - m.from_col = -2)
    (h7 : s.board m.to_row m.to_col = -1)
    (h8 : s.board m.from_row (if m.from_col < m.to_col then 7 else 0) = -1
        ∨ s.alive (s.board m.from_row (if m.from_col < m.to_col then 7 else 0)) = 0
        ∨ s.piece_type (s.board m.from_row (if m.from_col < m.to_col then 7 else 0)) ≠ 3) :
    ∃ s', apply_move s m = some s'
      ∧ s'.piece_col (s.board m.from_row m.from_col) = m.to_col
      ∧ s'.piece_row (s.board m.from_row m.from_col) = m.to_row
      ∧ s'.piece_moved (s.board m.from_row m.from_col) = 1
      ∧ (∀ j, j ≠ s.board m.from_row m.from_col →
          s'.piece_col j = s.piece_col j ∧ s'.piece_row j = s.piece_row j
          ∧ s'.piece_moved j = s.piece_moved j)
      ∧ (∀ j, s'.alive j = s.alive j ∧ s'.piece_type j = s.piece_type j)
      ∧ s'.board m.to_row m.to_col = s.board m.from_row m.from_col
      ∧ s'.board m.from_row m.from_col = -1
      ∧ (∀ r c, ¬ (r = m.to_row ∧ c = m.to_col) → ¬ (r = m.from_row ∧ c = m.from_col) →
          s'.board r c = s.board r c) := by
  unfold is_inside at h1 h2
  have hpt0 : s.piece_type (s.board m.from_row m.from_col) ≠ 0 := by rw [h5]; decide
  have happ : apply_move s m =
      some (apply_finish s m (s.board m.from_row m.from_col)
        (s.piece_type (s.board m.from_row m.from_col))
        (s.piece_color (s.board m.from_row m.from_col)) s.alive s.board false) := by
    simp only [apply_move]
    rw [if_neg (not_not_intro ⟨h1, h2⟩), if_neg (by push_neg; exact ⟨h3, h4⟩),
      if_neg (by rintro ⟨hep, -⟩; exact hpt0 hep), if_neg (not_not_intro h7)]
  have hC : ¬ rook_transit_fires s m (s.board m.from_row m.from_col)
      (s.piece_type (s.board m.from_row m.from_col)) s.alive s.board := by
    intro hrk
    unfold rook_transit_fires at hrk
    obtain ⟨hdelta, hne, hal, hty⟩ := hrk
    simp only [king_moved_board, castle_corner, promoted_types, h5] at hne hal hty
    norm_num at hne hal hty
    replace hdelta := hdelta.2
    by_cases hlt : m.from_col < m.to_col
    · simp only [if_pos hlt] at hne hal hty h8
      have hc7 : ¬ ((7 : Int) = m.from_col) := by rcases hdelta with hd | hd <;> omega
      simp only [if_neg hc7] at hne hal hty
      by_cases hAt : m.from_row = m.to_row ∧ (7 : Int) = m.to_col
      · simp only [if_pos hAt] at hty
        rw [h5] at hty
        exact absurd hty (by decide)
      · simp only [if_neg hAt] at hne hal hty
        rcases h8 with h8 | h8 | h8
        · exact hne h8
        · exact hal h8
        · exact h8 hty
    · simp only [if_neg hlt] at hne hal hty h8
      have hc0 : ¬ ((0 : Int) = m.from_col) := by rcases hdelta with hd | hd <;> omega
      simp only [if_neg hc0] at hne hal hty
      by_cases hAt : m.from_row = m.to_row ∧ (0 : Int) = m.to_col
      · simp only [if_pos hAt] at hty
        rw [h5] at hty
        exact absurd hty (by decide)
      · simp only [if_neg hAt] at hne hal hty
        rcases h8 with h8 | h8 | h8
        · exact hne h8
        · exact hal h8
        · exact h8 hty
  rw [h5] at hC
  have hfromto : ¬ (m.from_row = m.to_row ∧ m.from_col = m.to_col) := by
    rintro ⟨-, hcc⟩; rcases h6 with hd | hd <;> omega
  refine ⟨_, happ, ?_, ?_, ?_, fun j hj => ?_, fun j => ?_, ?_, ?_, fun r c hrc1 hrc2 => ?_⟩
  · simp [apply_finish, h5, hC]
  · simp [apply_finish, h5, hC]
  · simp [apply_finish, h5, hC]
  · simp [apply_finish, h5, hC, hj]
  · simp [apply_finish, promoted_types, h5, hC]
  · simp [apply_finish, king_moved_board, h5, hC]
  · simp [apply_finish, king_moved_board, h5, hC, hfromto]
  · simp [apply_finish, king_moved_board, h5, hC, hrc1, hrc2]

/-- The C10 witness position: a lone white king on `(4,0)`, no rook
anywhere. -/
def lone_king_state : SearchState :=
  (init_state (fun _ => 5) (fun _ => 0) (fun _ => 4) (fun _ => 0) none 1
    (-1) (-1) (-1) (-1) 0).getD zero_state

/-- Concrete instance of C10: the castling-shaped move `(4,0)→(6,0)` with
no rook on `(7,0)` is accepted and moves only the king. -/
theorem castle_without_rook_witness :
    ((apply_move lone_king_state ⟨4, 0, 6, 0, -1⟩).getD zero_state).piece_col 0 = 6 := by
  obtain ⟨s', happ, hcol, -⟩ := castle_without_rook lone_king_state ⟨4, 0, 6, 0, -1⟩
    (by decide) (by decide) (by decide) (by decide) (by decide) (Or.inl (by decide))
    (by decide) (Or.inl (by decide))
  rw [happ]
  simp only [Option.getD_some]
  have hb : lone_king_state.board (Move.mk 4 0 6 0 (-1)).from_row
      (Move.mk 4 0 6 0 (-1)).from_col = 0 := by decide
  rw [hb] at hcol
  exact hcol

/-- Membership in the slot list: exactly the indices `0 ≤ x < piece_count`. -/
theorem mem_pieceIdxs {s : SearchState} {x : Int} :
    x ∈ pieceIdxs s ↔ 0 ≤ x ∧ x < s.piece_count := by
  simp [pieceIdxs]
  constructor
  · intro h
    obtain ⟨k, hk, hkx⟩ := h
    omega
  · intro h
    exact ⟨x.toNat, by omega, by omega⟩

/-- The backward-pawn predicate exactly as the specification claims it,
for an alive pawn `i`: (a) the square directly ahead is on the board,
(b) no friendly pawn sits on an adjacent file at or behind the pawn's row
(behind = lower row for white, higher for black), and (c) some enemy pawn
attacks the square directly ahead. -/
def backward_pawn_spec_claim (s : SearchState) (i : Int) : Prop :=
  is_inside (s.piece_col i) (s.piece_row i + (if s.piece_color i = 0 then 1 else -1))
  ∧ (∀ j ∈ pieceIdxs s,
      ¬ (s.alive j ≠ 0 ∧ s.piece_type j = 0 ∧ s.piece_color j = s.piece_color i
        ∧ (s.piece_col j = s.piece_col i - 1 ∨ s.piece_col j = s.piece_col i + 1)
        ∧ (if s.piece_color i = 0 then s.piece_row j ≤ s.piece_row i
           else s.piece_row i ≤ s.piece_row j)))
  ∧ (∃ j ∈ pieceIdxs s, s.alive j ≠ 0 ∧ s.piece_type j = 0
      ∧ s.piece_color j = opponent_color (s.piece_color i)
      ∧ s.piece_row j + (if opponent_color (s.piece_color i) = 0 then 1 else -1)
          = s.piece_row i + (if s.piece_color i = 0 then 1 else -1)
      ∧ (s.piece_col j - 1 = s.piece_col i ∨ s.piece_col j + 1 = s.piece_col i))

/-- The backward-pawn predicate as the code actually computes it: same as
`backward_pawn_spec_claim` except that clause (b) excludes a friendly pawn
on an adjacent file at or AHEAD of the pawn's row (ahead = higher row for
white, lower for black). -/
def backward_pawn_spec_amended (s : SearchState) (i : Int) : Prop :=
  is_inside (s.piece_col i) (s.piece_row i + (if s.piece_color i = 0 then 1 else -1))
  ∧ (∀ j ∈ pieceIdxs s,
      ¬ (s.alive j ≠ 0 ∧ s.piece_type j = 0 ∧ s.piece_color j = s.piece_color i
        ∧ (s.piece_col j = s.piece_col i - 1 ∨ s.piece_col j = s.piece_col i + 1)
        ∧ (if s.piece_color i = 0 then s.piece_row i ≤ s.piece_row j
           else s.piece_row j ≤ s.piece_row i)))
  ∧ (∃ j ∈ pieceIdxs s, s.alive j ≠ 0 ∧ s.piece_type j = 0
      ∧ s.piece_color j = opponent_color (s.piece_color i)
      ∧ s.piece_row j + (if opponent_color (s.piece_color i) = 0 then 1 else -1)
          = s.piece_row i + (if s.piece_color i = 0 then 1 else -1)
      ∧ (s.piece_col j - 1 = s.piece_col i ∨ s.piece_col j + 1 = s.piece_col i))

instance backward_pawn_spec_claim_dec (s : SearchState) (i : Int) :
    Decidable (backward_pawn_spec_claim s i) := by
  unfold backward_pawn_spec_claim; exact inferInstance

instance backward_pawn_spec_amended_dec (s : SearchState) (i : Int) :
    Decidable (backward_pawn_spec_amended s i) := by
  unfold backward_pawn_spec_amended; exact inferInstance

/-- The concrete C1 counterexample position, built by a successful
`init_state`: white pawn (slot 0) on `(4,3)`, white pawn (slot 1) on
`(3,2)` — an adjacent file, strictly behind — and black pawn (slot 2) on
`(5,5)`, attacking `(4,4)`. -/
def backward_cex_state : SearchState :=
  (init_state (fun _ => 0) (fun i => if i = 2 then 1 else 0)
    (fun i => if i = 0 then 4 else if i = 1 then 3 else 5)
    (fun i => if i = 0 then 3 else if i = 1 then 2 else 5) none 3
    (-1) (-1) (-1) (-1) 0).getD zero_state

/-- C1 counterexample: the code marks the white pawn on `(4,3)` backward
even though a friendly pawn sits on an adjacent file at-or-behind its row
(`(3,2)`), so clause (b) of the claimed characterization is false: the code
checks friendly pawns at-or-AHEAD, not at-or-behind. -/
theorem backward_pawn_counterexample :
    is_backward_pawn_state backward_cex_state 0 = true
    ∧ ¬ backward_pawn_spec_claim backward_cex_state 0 := by
  constructor
  · decide
  · decide

/-- C1 amended: for every valid state (alive pieces on the board, colors
0 or 1) and alive pawn `i`, the code's backward predicate holds iff (a) the
square directly ahead is on the board, (b) no friendly pawn sits on an
adjacent file at or AHEAD of the pawn's row, and (c) some enemy pawn
attacks the square directly ahead.  Clause (b) is the amendment: the claim
said at-or-behind, the code checks at-or-ahead. -/
theorem backward_pawn_amended (s : SearchState) (i : Int)
    (hv : ∀ j ∈ pieceIdxs s, s.alive j ≠ 0 → is_inside (s.piece_col j) (s.piece_row j))
    (hcol : ∀ j ∈ pieceIdxs s, s.piece_color j = 0 ∨ s.piece_color j = 1)
    (hi : i ∈ pieceIdxs s)
    (ha : s.alive i ≠ 0) (hp : s.piece_type i = 0) :
    is_backward_pawn_state s i = true ↔ backward_pawn_spec_amended s i := by
  have hpc := hcol i hi
  unfold is_backward_pawn_state backward_pawn_spec_amended
  rw [if_neg (by push_neg; exact ⟨ha, hp⟩)]
  by_cases hin : is_inside (s.piece_col i) (s.piece_row i + (if s.piece_color i = 0 then 1 else -1))
  · rw [if_neg (not_not_intro hin)]
    by_cases hA1 : (([-1, 1] : List Int).any (fun delta =>
        decide (0 ≤ s.piece_col i + delta ∧ s.piece_col i + delta ≤ 7) &&
        (pieceIdxs s).any (fun j =>
          decide (s.alive j ≠ 0 ∧ s.piece_type j = 0 ∧ s.piece_color j = s.piece_color i
            ∧ s.piece_col j = s.piece_col i + delta
            ∧ ((s.piece_color i = 0 ∧ s.piece_row i ≤ s.piece_row j)
              ∨ (s.piece_color i = 1 ∧ s.piece_row j ≤ s.piece_row i)))))) = true
    · rw [if_pos hA1]
      simp only [List.any_eq_true, Bool.and_eq_true, decide_eq_true_eq] at hA1
      obtain ⟨delta, hdmem, hguard, j, hjmem, hj⟩ := hA1
      simp only [List.mem_cons, List.mem_singleton, List.not_mem_nil, or_false] at hdmem
      constructor
      · intro hfalse
        exact absurd hfalse (by decide)
      · rintro ⟨-, hB, -⟩
        refine absurd ?_ (hB j hjmem)
        refine ⟨hj.1, hj.2.1, hj.2.2.1, ?_, ?_⟩
        · rcases hdmem with rfl | rfl
          · left; omega
          · right; omega
        · rcases hj.2.2.2.2 with ⟨hc0, hr⟩ | ⟨hc1, hr⟩
          · rw [if_pos hc0]; exact hr
          · rw [if_neg (by rw [hc1]; decide)]; exact hr
    · rw [if_neg hA1]
      simp only [List.any_eq_true, Bool.and_eq_true, decide_eq_true_eq, not_exists] at hA1
      constructor
      · intro hA2
        simp only [List.any_eq_true, decide_eq_true_eq] at hA2
        refine ⟨hin, ?_, hA2⟩
        intro j hjmem
        rintro ⟨hja, hjp, hjc, hjcol, hjrow⟩
        have hjin := hv j hjmem hja
        unfold is_inside at hjin
        rcases hjcol with hjcol | hjcol
        · refine hA1 (-1) ⟨by simp, ⟨by omega, by omega⟩, j, hjmem, hja, hjp, hjc, by omega, ?_⟩
          rcases hpc with hc | hc
          · rw [if_pos hc] at hjrow; exact Or.inl ⟨hc, hjrow⟩
          · rw [hc] at hjrow; rw [if_neg (by decide)] at hjrow
            exact Or.inr ⟨hc, hjrow⟩
        · refine hA1 1 ⟨by simp, ⟨by omega, by omega⟩, j, hjmem, hja, hjp, hjc, by omega, ?_⟩
          rcases hpc with hc | hc
          · rw [if_pos hc] at hjrow; exact Or.inl ⟨hc, hjrow⟩
          · rw [hc] at hjrow; rw [if_neg (by decide)] at hjrow
            exact Or.inr ⟨hc, hjrow⟩
      · rintro ⟨-, hB, hC⟩
        simp only [List.any_eq_true, decide_eq_true_eq]
        exact hC
  · rw [if_pos (by exact hin)]
    constructor
    · intro hfalse
      exact absurd hfalse (by decide)
    · rintro ⟨hA, -, -⟩
      exact absurd hA hin

/-- Concrete instance of the amended C1: in the counterexample position the
pawn on `(4,3)` satisfies the amended characterization. -/
theorem backward_pawn_amended_witness :
    backward_pawn_spec_amended backward_cex_state 0 :=
  (backward_pawn_amended backward_cex_state 0 (by decide) (by decide) (by decide)
    (by decide) (by decide)).mp (by decide)

/-- Integral evaluation parameters used by concrete witness instances, with
every optional feature enabled. -/
def cex_params : EvalParams Int :=
  ⟨(fun k => if k = 0 then 1 else 3), some (fun r => r), true, 1, true,
    (fun j => j + 2), true, 2, 3, true⟩

section AntisymmetryTheorems

variable {α : Type} [LinearOrderedCommRing α]

/-- One evaluator loop iteration contributes opposite amounts under the
two perspectives: the sum of the two accumulators is invariant. -/
theorem evaluate_piece_step_antisym (s : SearchState) (p : EvalParams α) (i : Int)
    (hc : s.piece_color i = 0 ∨ s.piece_color i = 1) (sc0 sc1 : Score α) :
    (evaluate_piece_step s 0 p sc0 i).material + (evaluate_piece_step s 1 p sc1 i).material
      = sc0.material + sc1.material
    ∧ (evaluate_piece_step s 0 p sc0 i).heuristic + (evaluate_piece_step s 1 p sc1 i).heuristic
      = sc0.heuristic + sc1.heuristic := by
  simp only [evaluate_piece_step]
  by_cases ha : s.alive i = 0
  · simp [ha]
  · rw [if_neg ha, if_neg ha]
    rcases hc with hc | hc
    · rw [if_pos hc, if_neg (show ¬ s.piece_color i = 1 by rw [hc]; decide)]
      constructor <;> simp <;> ring
    · rw [if_neg (show ¬ s.piece_color i = 0 by rw [hc]; decide), if_pos hc]
      constructor <;> simp <;> ring

theorem eval_foldl_antisym (s : SearchState) (p : EvalParams α) (l : List Int)
    (hc : ∀ j ∈ l, s.piece_color j = 0 ∨ s.piece_color j = 1) :
    ∀ sc0 sc1 : Score α,
      (l.foldl (evaluate_piece_step s 0 p) sc0).material
        + (l.foldl (evaluate_piece_step s 1 p) sc1).material = sc0.material + sc1.material
      ∧ (l.foldl (evaluate_piece_step s 0 p) sc0).heuristic
        + (l.foldl (evaluate_piece_step s 1 p) sc1).heuristic
          = sc0.heuristic + sc1.heuristic := by
  induction l with
  | nil => intro sc0 sc1; simp
  | cons x xs ih =>
    intro sc0 sc1
    simp only [List.foldl_cons]
    have hstep := evaluate_piece_step_antisym s p x (hc x (by simp)) sc0 sc1
    have hih := ih (fun j hj => hc j (by simp [hj]))
      (evaluate_piece_step s 0 p sc0 x) (evaluate_piece_step s 1 p sc1 x)
    exact ⟨hih.1.trans hstep.1, hih.2.trans hstep.2⟩

theorem control_piece_step_antisym (s : SearchState) (p : EvalParams α) (i : Int)
    (hc : s.piece_color i = 0 ∨ s.piece_color i = 1) (t0 t1 : α) :
    control_piece_step s 0 p t0 i + control_piece_step s 1 p t1 i = t0 + t1 := by
  simp only [control_piece_step]
  by_cases ha : s.alive i = 0
  · simp [ha]
  · rw [if_neg ha, if_neg ha]
    rcases hc with hc | hc
    · rw [if_pos hc, if_neg (show ¬ s.piece_color i = 1 by rw [hc]; decide)]
      ring
    · rw [if_neg (show ¬ s.piece_color i = 0 by rw [hc]; decide), if_pos hc]
      ring

theorem control_foldl_antisym (s : SearchState) (p : EvalParams α) (l : List Int)
    (hc : ∀ j ∈ l, s.piece_color j = 0 ∨ s.piece_color j = 1) :
    ∀ t0 t1 : α,
      l.foldl (control_piece_step s 0 p) t0 + l.foldl (control_piece_step s 1 p) t1
        = t0 + t1 := by
  induction l with
  | nil => intro t0 t1; simp
  | cons x xs ih =>
    intro t0 t1
    simp only [List.foldl_cons]
    exact (ih (fun j hj => hc j (by simp [hj])) _ _).trans
      (control_piece_step_antisym s p x (hc x (by simp)) t0 t1)

/-- C5: for every state whose pieces carry colors 0 or 1 and every
parameter set, the static evaluator is antisymmetric in the perspective
color, in both components, including with the control term and the
opposite-bishop draw factor enabled. -/
theorem evaluate_state_antisymmetric (s : SearchState) (p : EvalParams α)
    (hc : ∀ j ∈ pieceIdxs s, s.piece_color j = 0 ∨ s.piece_color j = 1) :
    (evaluate_state s 0 p).material = -(evaluate_state s 1 p).material
    ∧ (evaluate_state s 0 p).heuristic = -(evaluate_state s 1 p).heuristic := by
  obtain ⟨hm, hh⟩ := eval_foldl_antisym s p (pieceIdxs s) hc ⟨0, 0⟩ ⟨0, 0⟩
  have hcm := control_foldl_antisym s p (pieceIdxs s) hc 0 0
  simp only [Score.mk.injEq] at hm hh
  norm_num at hm hh hcm
  simp only [evaluate_state, control_score]
  by_cases hcw : p.control_weight ≠ 0
  · rw [if_pos hcw, if_pos hcw]
    by_cases hob : p.has_opposite_bishop_draw_factor ∧ has_opposite_color_bishops_state s = true
    · rw [if_pos hob, if_pos hob]
      refine ⟨?_, ?_⟩ <;> simp only []
      · linear_combination hm
      · linear_combination p.opposite_bishop_draw_factor * hh
          + p.opposite_bishop_draw_factor * p.control_weight * hcm
    · rw [if_neg hob, if_neg hob]
      refine ⟨?_, ?_⟩ <;> simp only []
      · linear_combination hm
      · linear_combination hh + p.control_weight * hcm
  · rw [if_neg hcw, if_neg hcw]
    by_cases hob : p.has_opposite_bishop_draw_factor ∧ has_opposite_color_bishops_state s = true
    · rw [if_pos hob, if_pos hob]
      refine ⟨?_, ?_⟩ <;> simp only []
      · linear_combination hm
      · linear_combination p.opposite_bishop_draw_factor * hh
    · rw [if_neg hob, if_neg hob]
      exact ⟨by linear_combination hm, by linear_combination hh⟩

/-- Concrete instance of C5, with every optional term switched on. -/
theorem evaluate_state_antisymmetric_witness :
    (evaluate_state backward_cex_state 0 cex_params).material
      = -(evaluate_state backward_cex_state 1 cex_params).material
    ∧ (evaluate_state backward_cex_state 0 cex_params).heuristic
      = -(evaluate_state backward_cex_state 1 cex_params).heuristic :=
  evaluate_state_antisymmetric backward_cex_state cex_params (by decide)

end AntisymmetryTheorems


/-- Transfer of a board-square quantification between `Int` and `Nat`
bounds, used to give the occupancy predicates decidability. -/
theorem int_square_forall {P : Int → Int → Prop} :
    (∀ r c : Int, 0 ≤ r → r < 8 → 0 ≤ c → c < 8 → P r c) ↔
      (∀ r : Nat, r < 8 → ∀ c : Nat, c < 8 → P (r : Int) (c : Int)) := by
  constructor
  · intro h r hr c hc
    exact h _ _ (by omega) (by omega) (by omega) (by omega)
  · intro h r c hr0 hr8 hc0 hc8
    have := h r.toNat (by omega) c.toNat (by omega)
    rwa [Int.toNat_of_nonneg hr0, Int.toNat_of_nonneg hc0] at this

/-- The occupancy invariant of the state representation: every occupied
board square points to an alive piece slot in range standing exactly there,
and every alive piece slot is inside the board with its square pointing
back to it. -/
def OccInv (s : SearchState) : Prop :=
  (∀ r c : Int, 0 ≤ r → r < 8 → 0 ≤ c → c < 8 →
    (s.board r c = -1 ∨ (0 ≤ s.board r c ∧ s.board r c < s.piece_count
      ∧ s.alive (s.board r c) ≠ 0 ∧ s.piece_col (s.board r c) = c
      ∧ s.piece_row (s.board r c) = r)))
  ∧ (∀ i ∈ pieceIdxs s, s.alive i ≠ 0 →
      is_inside (s.piece_col i) (s.piece_row i)
      ∧ s.board (s.piece_row i) (s.piece_col i) = i)

instance OccInv_dec (s : SearchState) : Decidable (OccInv s) := by
  unfold OccInv
  refine decidable_of_iff _ (and_congr int_square_forall.symm Iff.rfl)

/-- C4's occupancy-consistency statement as claimed: board square
`(r,c)` holds slot `i` iff piece `i` is alive at `(c,r)`, and no two alive
pieces share a square. -/
def OccClaim (s : SearchState) : Prop :=
  (∀ r c : Int, 0 ≤ r → r < 8 → 0 ≤ c → c < 8 → ∀ i ∈ pieceIdxs s,
      (s.board r c = i ↔ (s.alive i ≠ 0 ∧ s.piece_col i = c ∧ s.piece_row i = r)))
  ∧ (∀ i ∈ pieceIdxs s, ∀ j ∈ pieceIdxs s, s.alive i ≠ 0 → s.alive j ≠ 0 →
      s.piece_col i = s.piece_col j → s.piece_row i = s.piece_row j → i = j)

instance OccClaim_dec (s : SearchState) : Decidable (OccClaim s) := by
  unfold OccClaim
  refine decidable_of_iff _ (and_congr int_square_forall.symm Iff.rfl)

/-- The representation invariant entails the claimed iff-formulation. -/
theorem OccInv_to_OccClaim {s : SearchState} (h : OccInv s) : OccClaim s := by
  obtain ⟨hA, hB⟩ := h
  constructor
  · intro r c hr0 hr8 hc0 hc8 i hi
    constructor
    · intro hb
      rcases hA r c hr0 hr8 hc0 hc8 with hempty | hfacts
      · rw [hb] at hempty
        rw [mem_pieceIdxs] at hi
        omega
      · rw [hb] at hfacts
        exact ⟨hfacts.2.2.1, hfacts.2.2.2.1, hfacts.2.2.2.2⟩
    · rintro ⟨hal, hcc, hrr⟩
      have := (hB i hi hal).2
      rwa [hrr, hcc] at this
  · intro i hi j hj hai haj hcc hrr
    have h1 := (hB i hi hai).2
    have h2 := (hB j hj haj).2
    rw [hcc, hrr] at h1
    rw [h1] at h2
    exact h2

/-- Invariant of the `init_state` placement loop: the partial board maps
occupied squares to the placed slots standing there, and every placed slot
passed validation and sits on its own square. -/
theorem init_board_loop_inv {tys cls cf rf : Int → Int} {n : Nat} {b : Int → Int → Int}
    (h : init_board_loop tys cls cf rf n = some b) :
    (∀ r c : Int, b r c = -1 ∨ (0 ≤ b r c ∧ b r c < (n : Int)
      ∧ cf (b r c) = c ∧ rf (b r c) = r))
    ∧ (∀ k : Nat, k < n →
        is_inside (cf k) (rf k) ∧ (0 ≤ tys k ∧ tys k ≤ 5) ∧ (cls k = 0 ∨ cls k = 1)
        ∧ b (rf k) (cf k) = (k : Int)) := by
  induction n generalizing b with
  | zero =>
    simp only [init_board_loop, Option.some_inj] at h
    subst h
    exact ⟨fun r c => Or.inl rfl, fun k hk => absurd hk (by omega)⟩
  | succ n ih =>
    simp only [init_board_loop] at h
    split at h
    · exact absurd h (by simp)
    · rename_i b0 hb0
      split at h
      · rename_i hcond
        rw [Option.some_inj] at h
        subst h
        obtain ⟨ihA, ihB⟩ := ih hb0
        obtain ⟨hin, hty, hcl, hdup⟩ := hcond
        constructor
        · intro r c
          simp only []
          by_cases hrc : r = rf (n : Int) ∧ c = cf (n : Int)
          · rw [if_pos hrc]
            right
            exact ⟨by omega, by omega, by rw [hrc.2], by rw [hrc.1]⟩
          · rw [if_neg hrc]
            rcases ihA r c with he | hf
            · exact Or.inl he
            · exact Or.inr ⟨hf.1, by omega, hf.2.2⟩
        · intro k hk
          by_cases hkn : k = n
          · subst hkn
            refine ⟨hin, hty, hcl, ?_⟩
            simp
          · have hk2 : k < n := by omega
            obtain ⟨ha, hb, hc, hd⟩ := ihB k hk2
            refine ⟨ha, hb, hc, ?_⟩
            simp only []
            rw [if_neg ?_]
            · exact hd
            · rintro ⟨hr, hc2⟩
              rw [hr, hc2] at hd
              rw [hdup] at hd
              omega
      · exact absurd h (by simp)


/-- A successful `init_state` establishes the occupancy invariant. -/
theorem init_state_occ {tys cls cf rf : Int → Int} {mv : Option (Int → Int)}
    {n ep1 ep2 ep3 ep4 hm : Int} {s : SearchState}
    (h : init_state tys cls cf rf mv n ep1 ep2 ep3 ep4 hm = some s) : OccInv s := by
  unfold init_state at h
  split at h
  · exact absurd h (by simp)
  · rename_i hrange
    push_neg at hrange
    split at h
    · exact absurd h (by simp)
    · rename_i b hb
      rw [Option.some_inj] at h
      subst h
      obtain ⟨hA, hB⟩ := init_board_loop_inv hb
      constructor
      · intro r c hr0 hr8 hc0 hc8
        simp only []
        rcases hA r c with he | hf
        · exact Or.inl he
        · right
          refine ⟨hf.1, by omega, by omega, hf.2.2.1, hf.2.2.2⟩
      · intro i hi hal
        rw [mem_pieceIdxs] at hi
        simp only [] at hi
        obtain ⟨ha2, hb2, hc2, hd2⟩ := hB i.toNat (by omega)
        rw [Int.toNat_of_nonneg hi.1] at ha2 hd2
        exact ⟨ha2, hd2⟩

/-- The occupancy invariant over the raw components of a state. -/
def OccParts (count : Int) (colf rowf alive1 : Int → Int) (b : Int → Int → Int) : Prop :=
  (∀ r c : Int, 0 ≤ r → r < 8 → 0 ≤ c → c < 8 →
    (b r c = -1 ∨ (0 ≤ b r c ∧ b r c < count ∧ alive1 (b r c) ≠ 0
      ∧ colf (b r c) = c ∧ rowf (b r c) = r)))
  ∧ (∀ i : Int, 0 ≤ i → i < count → alive1 i ≠ 0 →
      is_inside (colf i) (rowf i) ∧ b (rowf i) (colf i) = i)

/-- `OccInv` is `OccParts` of the state's components. -/
theorem OccInv_iff_parts {s : SearchState} :
    OccInv s ↔ OccParts s.piece_count s.piece_col s.piece_row s.alive s.board := by
  unfold OccInv OccParts
  refine and_congr Iff.rfl ?_
  constructor
  · intro h i h0 hc hal
    exact h i (mem_pieceIdxs.mpr ⟨h0, hc⟩) hal
  · intro h i hi hal
    rw [mem_pieceIdxs] at hi
    exact h i hi.1 hi.2 hal

/-- Relocating a piece from its square to an empty inside square preserves
the occupancy invariant.  This covers both the king step and the rook
transit of `apply_move`. -/
theorem occ_relocate {count : Int} {colf rowf alive1 : Int → Int} {b : Int → Int → Int}
    (h : OccParts count colf rowf alive1 b)
    {p fr fc tr tc : Int}
    (hfin : is_inside fc fr) (htin : is_inside tc tr)
    (hp : b fr fc = p) (hpne : p ≠ -1) (hempty : b tr tc = -1) :
    OccParts count (fun j => if j = p then tc else colf j)
      (fun j => if j = p then tr else rowf j) alive1
      (fun r c => if r = tr ∧ c = tc then p else if r = fr ∧ c = fc then -1 else b r c) := by
  obtain ⟨hA, hB⟩ := h
  obtain ⟨hfc0, hfc8, hfr0, hfr8⟩ := hfin
  obtain ⟨htc0, htc8, htr0, htr8⟩ := htin
  have hpf := hA fr fc hfr0 hfr8 hfc0 hfc8
  rw [hp] at hpf
  rcases hpf with hpf | hpf
  · exact absurd hpf hpne
  constructor
  · intro r c hr0 hr8 hc0 hc8
    simp only []
    by_cases h1 : r = tr ∧ c = tc
    · rw [if_pos h1]
      right
      refine ⟨hpf.1, hpf.2.1, hpf.2.2.1, ?_, ?_⟩
      · rw [if_pos rfl, h1.2]
      · rw [if_pos rfl, h1.1]
    · rw [if_neg h1]
      by_cases h2 : r = fr ∧ c = fc
      · rw [if_pos h2]
        exact Or.inl rfl
      · rw [if_neg h2]
        rcases hA r c hr0 hr8 hc0 hc8 with he | hf
        · exact Or.inl he
        · right
          have hbne : b r c ≠ p := by
            intro hbp
            rw [hbp] at hf
            exact h2 ⟨hf.2.2.2.2.symm.trans hpf.2.2.2.2,
              hf.2.2.2.1.symm.trans hpf.2.2.2.1⟩
          refine ⟨hf.1, hf.2.1, hf.2.2.1, ?_, ?_⟩
          · rw [if_neg hbne]; exact hf.2.2.2.1
          · rw [if_neg hbne]; exact hf.2.2.2.2
  · intro i h0 hc hal
    simp only []
    by_cases hip : i = p
    · subst hip
      rw [if_pos rfl, if_pos rfl]
      refine ⟨⟨htc0, htc8, htr0, htr8⟩, ?_⟩
      rw [if_pos ⟨rfl, rfl⟩]
    · rw [if_neg hip, if_neg hip]
      obtain ⟨hin, hbi⟩ := hB i h0 hc hal
      refine ⟨hin, ?_⟩
      rw [if_neg ?_, if_neg ?_]
      · exact hbi
      · rintro ⟨hr, hcc⟩
        rw [hr, hcc] at hbi
        rw [hbi] at hp
        exact hip hp
      · rintro ⟨hr, hcc⟩
        rw [hr, hcc] at hbi
        rw [hbi] at hempty
        omega

/-- Removing a piece from the board (killing it and clearing its square),
as the capture handling of `apply_move` does, preserves the occupancy
invariant. -/
theorem occ_kill {count : Int} {colf rowf alive1 : Int → Int} {b : Int → Int → Int}
    (h : OccParts count colf rowf alive1 b) {tc tr t : Int}
    (htin : is_inside tc tr) (hb : b tr tc = t) (htne : t ≠ -1) :
    OccParts count colf rowf (fun j => if j = t then 0 else alive1 j)
      (fun r c => if r = tr ∧ c = tc then -1 else b r c) := by
  obtain ⟨hA, hB⟩ := h
  obtain ⟨htc0, htc8, htr0, htr8⟩ := htin
  have htf := hA tr tc htr0 htr8 htc0 htc8
  rw [hb] at htf
  rcases htf with htf | htf
  · exact absurd htf htne
  constructor
  · intro r c hr0 hr8 hc0 hc8
    simp only []
    by_cases h1 : r = tr ∧ c = tc
    · rw [if_pos h1]
      exact Or.inl rfl
    · rw [if_neg h1]
      rcases hA r c hr0 hr8 hc0 hc8 with he | hf
      · exact Or.inl he
      · right
        have hbt : b r c ≠ t := by
          intro hx
          rw [hx] at hf
          exact h1 ⟨hf.2.2.2.2.symm.trans htf.2.2.2.2, hf.2.2.2.1.symm.trans htf.2.2.2.1⟩
        refine ⟨hf.1, hf.2.1, ?_, hf.2.2.2.1, hf.2.2.2.2⟩
        rw [if_neg hbt]
        exact hf.2.2.1
  · intro i h0 hc hal
    simp only [] at hal
    by_cases hit : i = t
    · rw [if_pos hit] at hal
      exact absurd rfl hal
    · rw [if_neg hit] at hal
      obtain ⟨hin, hbi⟩ := hB i h0 hc hal
      refine ⟨hin, ?_⟩
      simp only []
      have hne2 : ¬ (rowf i = tr ∧ colf i = tc) := by
        rintro ⟨hr, hcc⟩
        rw [hr, hcc] at hbi
        rw [hbi] at hb
        exact hit hb
      rw [if_neg hne2]
      exact hbi

/-- The square the castling transit reads is unaffected by clearing the
destination square of the king move (the ordinary-capture board update):
`king_moved_board` already overrides that square. -/
theorem king_moved_board_capture (m : Move) (pi : Int) (b : Int → Int → Int) :
    king_moved_board m pi (fun r c => if r = m.to_row ∧ c = m.to_col then -1 else b r c)
        m.from_row (castle_corner m)
      = king_moved_board m pi b m.from_row (castle_corner m) := by
  simp only [king_moved_board]
  by_cases h1 : m.from_row = m.to_row ∧ castle_corner m = m.to_col
  · simp only [if_pos h1]
  · simp only [if_neg h1]

/-- If the rook transit fires after an ordinary capture, it also fires on
the pre-capture arrays (the capture removal cannot create the alive corner
rook it requires). -/
theorem rook_transit_fires_capture {s : SearchState} {m : Move} {pi piece_type : Int}
    (h : rook_transit_fires s m pi piece_type
      (fun j => if j = s.board m.to_row m.to_col then 0 else s.alive j)
      (fun r c => if r = m.to_row ∧ c = m.to_col then -1 else s.board r c)) :
    rook_transit_fires s m pi piece_type s.alive s.board := by
  unfold rook_transit_fires at h ⊢
  rw [king_moved_board_capture] at h
  obtain ⟨ha, hne, hal, hty⟩ := h
  refine ⟨ha, hne, ?_, hty⟩
  intro h0
  apply hal
  show (if king_moved_board m pi s.board m.from_row (castle_corner m)
      = s.board m.to_row m.to_col then 0
    else s.alive (king_moved_board m pi s.board m.from_row (castle_corner m))) = 0
  by_cases hR : king_moved_board m pi s.board m.from_row (castle_corner m)
      = s.board m.to_row m.to_col
  · rw [if_pos hR]
  · rw [if_neg hR]
    exact h0

/-- The proviso under which the castling rook transit respects occupancy:
whenever the transit fires, its destination square is not the king's own
destination, and is either empty or the square the king just vacated. -/
def castle_transit_safe (s : SearchState) (m : Move) : Prop :=
  rook_transit_fires s m (s.board m.from_row m.from_col)
      (s.piece_type (s.board m.from_row m.from_col)) s.alive s.board →
    ¬ (m.from_row = m.to_row ∧ castle_tdest m = m.to_col)
    ∧ (s.board m.from_row (castle_tdest m) = -1 ∨ castle_tdest m = m.from_col)

instance castle_transit_safe_dec (s : SearchState) (m : Move) :
    Decidable (castle_transit_safe s m) := by
  unfold castle_transit_safe
  exact inferInstance

/-- The finishing phase of `apply_move` preserves the occupancy invariant,
given the post-capture arrays satisfy it, the move stays on the board, the
source square holds the moved piece, the destination square is empty, and
the castling transit (when it fires) satisfies the safety proviso. -/
theorem apply_finish_occ {s : SearchState} {m : Move} {pi piece_type piece_color : Int}
    {alive1 : Int → Int} {board1 : Int → Int → Int} {is_capture : Bool}
    (h : OccParts s.piece_count s.piece_col s.piece_row alive1 board1)
    (hfin : is_inside m.from_col m.from_row) (htin : is_inside m.to_col m.to_row)
    (hp : board1 m.from_row m.from_col = pi) (hpne : pi ≠ -1)
    (hempty : board1 m.to_row m.to_col = -1)
    (hsafe : rook_transit_fires s m pi piece_type alive1 board1 →
      ¬ (m.from_row = m.to_row ∧ castle_tdest m = m.to_col)
      ∧ (board1 m.from_row (castle_tdest m) = -1 ∨ castle_tdest m = m.from_col)) :
    OccParts s.piece_count
      (apply_finish s m pi piece_type piece_color alive1 board1 is_capture).piece_col
      (apply_finish s m pi piece_type piece_color alive1 board1 is_capture).piece_row
      alive1
      (apply_finish s m pi piece_type piece_color alive1 board1 is_capture).board := by
  have h1 : OccParts s.piece_count (fun j => if j = pi then m.to_col else s.piece_col j)
      (fun j => if j = pi then m.to_row else s.piece_row j) alive1
      (king_moved_board m pi board1) :=
    occ_relocate h hfin htin hp hpne hempty
  by_cases hrk : rook_transit_fires s m pi piece_type alive1 board1
  · obtain ⟨hs1, hs2⟩ := hsafe hrk
    have hrne : king_moved_board m pi board1 m.from_row (castle_corner m) ≠ -1 := hrk.2.1
    have hcin : is_inside (castle_corner m) m.from_row := by
      obtain ⟨-, -, ha, hb⟩ := hfin
      unfold castle_corner
      by_cases hlt : m.from_col < m.to_col
      · rw [if_pos hlt]
        exact ⟨by norm_num, by norm_num, ha, hb⟩
      · rw [if_neg hlt]
        exact ⟨le_refl 0, by norm_num, ha, hb⟩
    have htdin : is_inside (castle_tdest m) m.from_row := by
      obtain ⟨-, -, ha, hb⟩ := hfin
      unfold castle_tdest
      by_cases hlt : m.from_col < m.to_col
      · rw [if_pos hlt]
        exact ⟨by norm_num, by norm_num, ha, hb⟩
      · rw [if_neg hlt]
        exact ⟨by norm_num, by norm_num, ha, hb⟩
    have hemp2 : king_moved_board m pi board1 m.from_row (castle_tdest m) = -1 := by
      show (if m.from_row = m.to_row ∧ castle_tdest m = m.to_col then pi
        else if m.from_row = m.from_row ∧ castle_tdest m = m.from_col then -1
        else board1 m.from_row (castle_tdest m)) = -1
      rw [if_neg hs1]
      rcases hs2 with he | he
      · by_cases hfc : castle_tdest m = m.from_col
        · rw [if_pos ⟨rfl, hfc⟩]
        · rw [if_neg (by rintro ⟨-, hx⟩; exact hfc hx)]
          exact he
      · rw [if_pos ⟨rfl, he⟩]
    have h2 := occ_relocate h1 hcin htdin rfl hrne hemp2
    simp only [apply_finish, if_pos hrk]
    exact h2
  · simp only [apply_finish, if_neg hrk]
    exact h1

/-- A successful `apply_move` on a state satisfying the occupancy invariant
yields a state satisfying it again, provided the castling transit (when it
fires) satisfies the safety proviso.  All three accepting branches
(en-passant capture, ordinary capture, plain move) are covered. -/
theorem apply_move_occ {s : SearchState} {m : Move} {s' : SearchState}
    (hocc : OccInv s) (hsafe : castle_transit_safe s m)
    (h : apply_move s m = some s') : OccInv s' := by
  rw [OccInv_iff_parts] at hocc
  rw [OccInv_iff_parts]
  simp only [apply_move] at h
  split at h
  · exact absurd h (by simp)
  rename_i hin
  rw [not_not] at hin
  split at h
  · exact absurd h (by simp)
  rename_i hpi
  push_neg at hpi
  split at h
  · rename_i hep
    obtain ⟨hty0, hti, hcolne, hepc, hepr, hepin⟩ := hep
    split at h
    · exact absurd h (by simp)
    rename_i hci
    push_neg at hci
    rw [Option.some_inj] at h
    subst h
    have hkill := occ_kill hocc hepin rfl hci.1
    have hfep : ¬ (m.from_row = s.en_passant_capture_row
        ∧ m.from_col = s.en_passant_capture_col) := by
      rintro ⟨hx1, hx2⟩
      have hcc := hci.2.2.2
      rw [← hx1, ← hx2] at hcc
      exact hcc rfl
    refine apply_finish_occ hkill hin.1 hin.2 (if_neg hfep) hpi.1 ?_ ?_
    · show (if m.to_row = s.en_passant_capture_row
          ∧ m.to_col = s.en_passant_capture_col then -1
        else s.board m.to_row m.to_col) = -1
      by_cases hx : m.to_row = s.en_passant_capture_row
          ∧ m.to_col = s.en_passant_capture_col
      · rw [if_pos hx]
      · rw [if_neg hx]
        exact hti
    · intro hrk
      have h5 := hrk.1.1
      rw [hty0] at h5
      exact absurd h5 (by decide)
  · rename_i hepneg
    split at h
    · rename_i hti
      split at h
      · exact absurd h (by simp)
      rename_i hcap
      push_neg at hcap
      rw [Option.some_inj] at h
      subst h
      have hfromto : ¬ (m.from_row = m.to_row ∧ m.from_col = m.to_col) := by
        rintro ⟨hx1, hx2⟩
        have hcc := hcap.2
        rw [← hx1, ← hx2] at hcc
        exact hcc rfl
      have hkill := occ_kill hocc hin.2 rfl hti
      refine apply_finish_occ hkill hin.1 hin.2 (if_neg hfromto) hpi.1
        (if_pos ⟨rfl, rfl⟩) ?_
      intro hrk
      obtain ⟨hs1, hs2⟩ := hsafe (rook_transit_fires_capture hrk)
      refine ⟨hs1, ?_⟩
      rcases hs2 with he | he
      · left
        show (if m.from_row = m.to_row ∧ castle_tdest m = m.to_col then -1
          else s.board m.from_row (castle_tdest m)) = -1
        by_cases hx : m.from_row = m.to_row ∧ castle_tdest m = m.to_col
        · rw [if_pos hx]
        · rw [if_neg hx]
          exact he
      · right
        exact he
    · rename_i hti
      rw [not_not] at hti
      rw [Option.some_inj] at h
      subst h
      exact apply_finish_occ hocc hin.1 hin.2 rfl hpi.1 hti hsafe

/-- A state from `init_state` with a white king on (col 4, row 0), a white
knight on (5, 0) and a white rook on (7, 0). -/
def castle_cex_state : SearchState :=
  (init_state (fun i => if i = 0 then 5 else if i = 1 then 1 else 3) (fun x => 0)
    (fun i => if i = 0 then 4 else if i = 1 then 5 else 7) (fun x => 0)
    none 3 (-1) (-1) (-1) (-1) 0).getD zero_state

/-- C4 fails as stated: from an `init_state`-produced state satisfying the
occupancy invariant, the accepted castling-shaped king move (4,0)→(6,0)
lets the rook transit overwrite the occupied transit square (5,0), leaving
the knight alive on a square whose occupancy entry points elsewhere: the
grid and the piece list disagree. -/
theorem occupancy_castle_counterexample :
    OccInv castle_cex_state
    ∧ (apply_move castle_cex_state ⟨4, 0, 6, 0, -1⟩).map
        (fun t => decide (OccClaim t)) = some false := by
  constructor
  · decide
  · decide

/-- C4 (amended): occupancy consistency holds after `init_state`, and is
preserved by every accepted `apply_move` whose castling rook transit, if it
fires, lands on a square that is free or just vacated by the king and is
not the king's destination (`castle_transit_safe`); without that proviso
the transit can overwrite an occupied square. -/
theorem occupancy_consistency :
    (∀ (tys cls cf rf : Int → Int) (mv : Option (Int → Int))
        (n ep1 ep2 ep3 ep4 hm : Int) (s : SearchState),
        init_state tys cls cf rf mv n ep1 ep2 ep3 ep4 hm = some s →
        OccInv s ∧ OccClaim s)
    ∧ (∀ (s : SearchState) (m : Move) (s' : SearchState),
        OccInv s → castle_transit_safe s m → apply_move s m = some s' →
        OccInv s' ∧ OccClaim s') := by
  constructor
  · intro tys cls cf rf mv n ep1 ep2 ep3 ep4 hm s h
    have hI := init_state_occ h
    exact ⟨hI, OccInv_to_OccClaim hI⟩
  · intro s m s' h1 h2 h3
    have hI := apply_move_occ h1 h2 h3
    exact ⟨hI, OccInv_to_OccClaim hI⟩

/-- A state from `init_state` with a white king on (col 4, row 0) and a
white rook on (7, 0): kingside castling with an empty transit square. -/
def occ_wit_state : SearchState :=
  (init_state (fun i => if i = 0 then 5 else 3) (fun x => 0)
    (fun i => if i = 0 then 4 else 7) (fun x => 0)
    none 2 (-1) (-1) (-1) (-1) 0).getD zero_state

/-- Concrete instance of the amended C4: occupancy consistency holds after
this `init_state` call and after the accepted castling move (4,0)→(6,0),
whose rook transit fires onto an empty square. -/
theorem occupancy_consistency_witness :
    OccClaim occ_wit_state
    ∧ OccClaim ((apply_move occ_wit_state ⟨4, 0, 6, 0, -1⟩).getD zero_state) := by
  have h0 : init_state (fun i => if i = 0 then 5 else 3) (fun x => 0)
      (fun i => if i = 0 then 4 else 7) (fun x => 0)
      none 2 (-1) (-1) (-1) (-1) 0 = some occ_wit_state := by
    have hs : (init_state (fun i => if i = 0 then 5 else 3) (fun x => 0)
        (fun i => if i = 0 then 4 else 7) (fun x => 0)
        none 2 (-1) (-1) (-1) (-1) 0).isSome = true := by decide
    obtain ⟨t, ht⟩ := Option.isSome_iff_exists.mp hs
    unfold occ_wit_state
    rw [ht]
    rfl
  obtain ⟨hI, hC⟩ := occupancy_consistency.1 _ _ _ _ none 2 (-1) (-1) (-1) (-1) 0
    occ_wit_state h0
  have h1 : apply_move occ_wit_state ⟨4, 0, 6, 0, -1⟩
      = some ((apply_move occ_wit_state ⟨4, 0, 6, 0, -1⟩).getD zero_state) := by
    have hs : (apply_move occ_wit_state ⟨4, 0, 6, 0, -1⟩).isSome = true := by decide
    obtain ⟨t, ht⟩ := Option.isSome_iff_exists.mp hs
    rw [ht]
    rfl
  obtain ⟨hI2, hC2⟩ := occupancy_consistency.2 occ_wit_state ⟨4, 0, 6, 0, -1⟩ _
    hI (by decide) h1
  exact ⟨hC, hC2⟩

/-- Piece values of the C3 scenario: kings are worth 10, everything else 1. -/
def ex3_vals : Int → Int := fun k => if k = 5 then 10 else 1

/-- Position multipliers of the C3 scenario: corners count 3, corner-touch
squares 0, all other classes 1. -/
def ex3_pm : Int → Int := fun j => if j = 3 then 3 else if j = 5 then 0 else 1

/-- Parameter set of the C3 scenario: values and position multipliers only. -/
def ex3_params : EvalParams Int := ⟨ex3_vals, none, false, 0, false, ex3_pm, true, 0, 0, false⟩

/-- A fresh transposition cache (capacity `2 ^ 32`, all buckets invalid,
as `create_search_cache` calloc-fills it). -/
def ex3_cache : SearchCache Int := ⟨2 ^ 32, fun x => none⟩

/-- Two kings: slot 0 the white king, slot 1 the black king. -/
def ex3_ty : Int → Int := fun x => 5

/-- Colors of the two kings. -/
def ex3_cl : Int → Int := fun i => if i = 0 then 0 else 1

/-- Columns: white king on file 0, black king on file 7. -/
def ex3_cf : Int → Int := fun i => if i = 0 then 0 else 7

/-- Rows of position A: white king on (0,0), black king on (7,7). -/
def ex3_rowA : Int → Int := fun i => if i = 0 then 0 else 7

/-- Rows of position B: white king on (0,0), black king on (7,6). -/
def ex3_rowB : Int → Int := fun i => if i = 0 then 0 else 6

/-- Both kings already moved. -/
def ex3_mv : Int → Int := fun x => 1

/-- First call: choose for white from position A at 1 ply with the fresh
cache.  Its depth-0 evaluations are stored keyed only by
(hash, active color, remaining plies) - the perspective (white) is not part
of the key. -/
def ex3_r1 : BestMoveResult Int :=
  choose_best_move_c (some ex3_ty) (some ex3_cl) (some ex3_cf) (some ex3_rowA)
    (some ex3_mv) 2 0 1 (some ex3_vals) none false 0 false ex3_pm true 0 0 false
    (-1) (-1) (-1) (-1) 0 true (some ex3_cache)

/-- Second call: choose for black from position B at 2 plies, reusing the
cache of the first call.  Its depth-0 nodes revisit position A's children
with the same active color and remaining plies, so the lookups hit the
entries stored from white's perspective. -/
def ex3_r2 : BestMoveResult Int :=
  choose_best_move_c (some ex3_ty) (some ex3_cl) (some ex3_cf) (some ex3_rowB)
    (some ex3_mv) 2 1 2 (some ex3_vals) none false 0 false ex3_pm true 0 0 false
    (-1) (-1) (-1) (-1) (-1) true ex3_r1.cache_out

/-- The same second call with a null cache handle. -/
def ex3_r3 : BestMoveResult Int :=
  choose_best_move_c (some ex3_ty) (some ex3_cl) (some ex3_cf) (some ex3_rowB)
    (some ex3_mv) 2 1 2 (some ex3_vals) none false 0 false ex3_pm true 0 0 false
    (-1) (-1) (-1) (-1) (-1) true none

/-- Position A as a state. -/
def ex3_stateA : SearchState :=
  (init_state ex3_ty ex3_cl ex3_cf ex3_rowA (some ex3_mv) 2 (-1) (-1) (-1) (-1) 0).getD
    zero_state

/-- Position A after white king (0,0)→(1,1): a depth-0 node of both the
first call and (via black (7,6)→(7,7), white (0,0)→(1,1)) the second. -/
def ex3_child : SearchState := (apply_move ex3_stateA ⟨0, 0, 1, 1, -1⟩).getD zero_state

set_option maxRecDepth 100000 in
set_option maxHeartbeats 4000000 in
set_option smartUnfolding false in
/-- C3 fails in the code: the cache key (hash, active color, remaining
plies) omits the perspective color, so the second chooser call, run for
black with the cache left by a white search, reads scores computed from
white's perspective and picks the move (7,6)→(6,5), while the identical
call with a null cache picks (7,6)→(7,7).  Concretely, the poisoned lookup
at the shared depth-0 node returns heuristic -20 where the cacheless search
of that node from black's perspective computes +20. -/
theorem cache_perspective_poisoning :
    ex3_r2.move_out = some (7, 6, 6, 5)
    ∧ ex3_r3.move_out = some (7, 6, 7, 7)
    ∧ cache_lookup ex3_r1.cache_out (hash_state ex3_child 1 0) 1 0 = some ⟨0, -20⟩
    ∧ (minimax_score_state 0 ex3_child 1 1 ex3_params none).1 = ⟨0, 20⟩ := by
  exact ⟨by decide, by decide, by decide, by decide⟩

/-- Membership in the capped move append. -/
theorem mem_append_move {l : List Move} {m0 m : Move} (h : m ∈ append_move l m0) :
    m ∈ l ∨ m = m0 := by
  unfold append_move at h
  split at h
  · exact Or.inl h
  · rcases List.mem_append.mp h with h | h
    · exact Or.inl h
    · exact Or.inr (List.mem_singleton.mp h)

/-- Sufficient conditions for `apply_move` to accept a move: the squares are
on the board, the source square holds an alive piece, a triggered en-passant
capture has a proper victim, and a destination occupant is an alive enemy. -/
theorem apply_move_isSome {s : SearchState} {m : Move}
    (h1 : is_inside m.from_col m.from_row) (h2 : is_inside m.to_col m.to_row)
    (h3 : s.board m.from_row m.from_col ≠ -1)
    (h4 : s.alive (s.board m.from_row m.from_col) ≠ 0)
    (hep : (s.piece_type (s.board m.from_row m.from_col) = 0
        ∧ s.board m.to_row m.to_col = -1 ∧ m.from_col ≠ m.to_col
        ∧ s.en_passant_target_col = m.to_col ∧ s.en_passant_target_row = m.to_row
        ∧ is_inside s.en_passant_capture_col s.en_passant_capture_row) →
      (s.board s.en_passant_capture_row s.en_passant_capture_col ≠ -1
        ∧ s.alive (s.board s.en_passant_capture_row s.en_passant_capture_col) ≠ 0
        ∧ s.piece_type (s.board s.en_passant_capture_row s.en_passant_capture_col) = 0
        ∧ s.piece_color (s.board s.en_passant_capture_row s.en_passant_capture_col)
            ≠ s.piece_color (s.board m.from_row m.from_col)))
    (hcap : s.board m.to_row m.to_col ≠ -1 →
      s.alive (s.board m.to_row m.to_col) ≠ 0
      ∧ s.piece_color (s.board m.to_row m.to_col)
          ≠ s.piece_color (s.board m.from_row m.from_col)) :
    (apply_move s m).isSome = true := by
  simp only [apply_move]
  rw [if_neg (not_not_intro ⟨h1, h2⟩), if_neg (by push_neg; exact ⟨h3, h4⟩)]
  split
  · rename_i hepc
    rw [if_neg ?_]
    · simp
    · obtain ⟨e1, e2, e3, e4⟩ := hep hepc
      push_neg
      exact ⟨e1, e2, e3, e4⟩
  · split
    · rename_i hti
      rw [if_neg ?_]
      · simp
      · obtain ⟨c1, c2⟩ := hcap hti
        push_neg
        exact ⟨c1, c2⟩
    · simp

/-- Folding an accepting step function only adds acceptable moves. -/
theorem foldl_mem_accept {X : Type} {P : Move → Prop} (f : List Move → X → List Move)
    (xs : List X) :
    (∀ x ∈ xs, ∀ l m, m ∈ f l x → m ∈ l ∨ P m) →
    ∀ (l : List Move) (m : Move), m ∈ xs.foldl f l → m ∈ l ∨ P m := by
  induction xs with
  | nil =>
    intro hf l m hm
    exact Or.inl hm
  | cons x xs ih =>
    intro hf l m hm
    simp only [List.foldl_cons] at hm
    rcases ih (fun y hy l2 m2 hm2 => hf y (List.mem_cons_of_mem x hy) l2 m2 hm2)
      (f l x) m hm with h | h
    · exact hf x (List.mem_cons_self x xs) l m h
    · exact Or.inr h

/-- Every move emitted by the pawn push section is accepted by
`apply_move`. -/
theorem pawn_push_accept {s : SearchState} {i : Int}
    (hfin : is_inside (s.piece_col i) (s.piece_row i))
    (hb : s.board (s.piece_row i) (s.piece_col i) = i)
    (hne : i ≠ -1) (hal : s.alive i ≠ 0)
    {l : List Move} {m : Move} (hm : m ∈ pawn_push_moves s i l) :
    m ∈ l ∨ (apply_move s m).isSome = true := by
  have hb3 : s.board (s.piece_row i) (s.piece_col i) ≠ -1 := by rw [hb]; exact hne
  have hb4 : s.alive (s.board (s.piece_row i) (s.piece_col i)) ≠ 0 := by rw [hb]; exact hal
  simp only [pawn_push_moves] at hm
  generalize (if s.piece_color i = 0 then (1 : Int) else -1) = d at hm
  split at hm
  · rename_i hfwd
    split at hm
    · rename_i hdbl
      rcases mem_append_move hm with hm | heq
      · rcases mem_append_move hm with hm | heq
        · exact Or.inl hm
        · right
          subst heq
          refine apply_move_isSome hfin hfwd.1 hb3 hb4 ?_ ?_
          · intro hepc
            exact absurd rfl hepc.2.2.1
          · intro hti
            exact absurd hfwd.2 hti
      · right
        subst heq
        refine apply_move_isSome hfin hdbl.2.1 hb3 hb4 ?_ ?_
        · intro hepc
          exact absurd rfl hepc.2.2.1
        · intro hti
          exact absurd hdbl.2.2 hti
    · rcases mem_append_move hm with hm | heq
      · exact Or.inl hm
      · right
        subst heq
        refine apply_move_isSome hfin hfwd.1 hb3 hb4 ?_ ?_
        · intro hepc
          exact absurd rfl hepc.2.2.1
        · intro hti
          exact absurd hfwd.2 hti
  · exact Or.inl hm

/-- Every move emitted by a pawn capture diagonal is accepted by
`apply_move`. -/
theorem pawn_cb_accept {s : SearchState} {i δ : Int}
    (hfin : is_inside (s.piece_col i) (s.piece_row i))
    (hb : s.board (s.piece_row i) (s.piece_col i) = i)
    (hne : i ≠ -1) (hal : s.alive i ≠ 0)
    {l : List Move} {m : Move} (hm : m ∈ pawn_capture_branch s i l δ) :
    m ∈ l ∨ (apply_move s m).isSome = true := by
  have hb3 : s.board (s.piece_row i) (s.piece_col i) ≠ -1 := by rw [hb]; exact hne
  have hb4 : s.alive (s.board (s.piece_row i) (s.piece_col i)) ≠ 0 := by rw [hb]; exact hal
  simp only [pawn_capture_branch] at hm
  generalize (if s.piece_color i = 0 then (1 : Int) else -1) = d at hm
  split at hm
  · rename_i hins
    split at hm
    · rename_i htic
      rcases mem_append_move hm with hm | heq
      · exact Or.inl hm
      · right
        subst heq
        refine apply_move_isSome hfin hins hb3 hb4 ?_ ?_
        · intro hepc
          exact absurd hepc.2.1 htic.1
        · intro hti
          refine ⟨htic.2.1, ?_⟩
          rw [hb]
          exact htic.2.2
    · split at hm
      · rename_i hept
        split at hm
        · rename_i hvic
          rcases mem_append_move hm with hm | heq
          · exact Or.inl hm
          · right
            subst heq
            refine apply_move_isSome hfin hins hb3 hb4 ?_ ?_
            · intro hepc
              refine ⟨hvic.1, hvic.2.1, hvic.2.2.1, ?_⟩
              rw [hb]
              exact hvic.2.2.2.1
            · intro hti
              exact absurd hept.2.2.1 hti
        · exact Or.inl hm
      · exact Or.inl hm
  · exact Or.inl hm

/-- Every move emitted by pawn generation is accepted by `apply_move`. -/
theorem pawn_moves_accept {s : SearchState} {i : Int}
    (hfin : is_inside (s.piece_col i) (s.piece_row i))
    (hb : s.board (s.piece_row i) (s.piece_col i) = i)
    (hne : i ≠ -1) (hal : s.alive i ≠ 0)
    {l : List Move} {m : Move} (hm : m ∈ pawn_moves s i l) :
    m ∈ l ∨ (apply_move s m).isSome = true := by
  simp only [pawn_moves] at hm
  rcases pawn_cb_accept hfin hb hne hal hm with hm | h
  · rcases pawn_cb_accept hfin hb hne hal hm with hm | h
    · exact pawn_push_accept hfin hb hne hal hm
    · exact Or.inr h
  · exact Or.inr h

/-- Every move emitted by knight generation is accepted by `apply_move`. -/
theorem knight_moves_accept {s : SearchState} {i : Int} (hocc : OccInv s)
    (hfin : is_inside (s.piece_col i) (s.piece_row i))
    (hb : s.board (s.piece_row i) (s.piece_col i) = i)
    (hne : i ≠ -1) (hal : s.alive i ≠ 0) (hty : s.piece_type i ≠ 0)
    {l : List Move} {m : Move} (hm : m ∈ knight_moves s i l) :
    m ∈ l ∨ (apply_move s m).isSome = true := by
  have hb3 : s.board (s.piece_row i) (s.piece_col i) ≠ -1 := by rw [hb]; exact hne
  have hb4 : s.alive (s.board (s.piece_row i) (s.piece_col i)) ≠ 0 := by rw [hb]; exact hal
  simp only [knight_moves] at hm
  refine @foldl_mem_accept (Int × Int) (fun m2 => (apply_move s m2).isSome = true)
    _ knight_offsets ?_ l m hm
  intro off hoff l2 m2 hm2
  simp only [] at hm2
  split at hm2
  · rename_i hins
    split at hm2
    · rename_i hcnd
      rcases mem_append_move hm2 with hm2 | heq
      · exact Or.inl hm2
      · right
        subst heq
        refine apply_move_isSome hfin hins hb3 hb4 ?_ ?_
        · intro hepc
          rw [hb] at hepc
          exact absurd hepc.1 hty
        · intro hti
          obtain ⟨hc0, hc8, hr0, hr8⟩ := hins
          rcases hocc.1 _ _ hr0 hr8 hc0 hc8 with he | hf
          · exact absurd he hti
          · refine ⟨hf.2.2.1, ?_⟩
            rw [hb]
            rcases hcnd with hcnd | hcnd
            · exact absurd hcnd hti
            · exact hcnd
    · exact Or.inl hm2
  · exact Or.inl hm2

/-- Every move emitted along a sliding ray is accepted by `apply_move`. -/
theorem slide_ray_accept {s : SearchState} {i pc col row dc dr : Int} (hocc : OccInv s)
    (hfin : is_inside col row) (hb : s.board row col = i)
    (hne : i ≠ -1) (hal : s.alive i ≠ 0) (hty : s.piece_type i ≠ 0)
    (hpc : pc = s.piece_color i) :
    ∀ (fuel : Nat) (tc tr : Int) (l : List Move) (m : Move),
      m ∈ slide_ray s pc col row dc dr fuel tc tr l →
      m ∈ l ∨ (apply_move s m).isSome = true := by
  have hb3 : s.board row col ≠ -1 := by rw [hb]; exact hne
  have hb4 : s.alive (s.board row col) ≠ 0 := by rw [hb]; exact hal
  intro fuel
  induction fuel with
  | zero =>
    intro tc tr l m hm
    simp only [slide_ray] at hm
    exact Or.inl hm
  | succ fuel ih =>
    intro tc tr l m hm
    simp only [slide_ray] at hm
    split at hm
    · rename_i hins
      split at hm
      · rename_i hti0
        rcases ih (tc + dc) (tr + dr) _ m hm with hm | h
        · rcases mem_append_move hm with hm | heq
          · exact Or.inl hm
          · right
            subst heq
            refine apply_move_isSome hfin hins hb3 hb4 ?_ ?_
            · intro hepc
              rw [hb] at hepc
              exact absurd hepc.1 hty
            · intro hti
              exact absurd hti0 hti
        · exact Or.inr h
      · rename_i hti0
        split at hm
        · rename_i hcol
          rcases mem_append_move hm with hm | heq
          · exact Or.inl hm
          · right
            subst heq
            refine apply_move_isSome hfin hins hb3 hb4 ?_ ?_
            · intro hepc
              rw [hb] at hepc
              exact absurd hepc.1 hty
            · intro hti
              obtain ⟨hc0, hc8, hr0, hr8⟩ := hins
              rcases hocc.1 _ _ hr0 hr8 hc0 hc8 with he | hf
              · exact absurd he hti
              · refine ⟨hf.2.2.1, ?_⟩
                rw [hb, ← hpc]
                exact hcol
        · exact Or.inl hm
    · exact Or.inl hm

/-- Every move emitted by bishop/rook/queen generation is accepted by
`apply_move`. -/
theorem slider_moves_accept {s : SearchState} {i : Int} (hocc : OccInv s)
    (hfin : is_inside (s.piece_col i) (s.piece_row i))
    (hb : s.board (s.piece_row i) (s.piece_col i) = i)
    (hne : i ≠ -1) (hal : s.alive i ≠ 0) (hty : s.piece_type i ≠ 0)
    {l : List Move} {m : Move} (hm : m ∈ slider_moves s i l) :
    m ∈ l ∨ (apply_move s m).isSome = true := by
  simp only [slider_moves] at hm
  split at hm
  · rcases @foldl_mem_accept (Int × Int) (fun m2 => (apply_move s m2).isSome = true) _ rook_dirs
        (fun d hd l2 m2 hm2 => slide_ray_accept hocc hfin hb hne hal hty rfl 8 _ _ l2 m2 hm2)
        _ m hm with hm | h
    · split at hm
      · exact @foldl_mem_accept (Int × Int) (fun m2 => (apply_move s m2).isSome = true)
          _ bishop_dirs
          (fun d hd l2 m2 hm2 => slide_ray_accept hocc hfin hb hne hal hty rfl 8 _ _ l2 m2 hm2)
          l m hm
      · exact Or.inl hm
    · exact Or.inr h
  · split at hm
    · exact @foldl_mem_accept (Int × Int) (fun m2 => (apply_move s m2).isSome = true)
        _ bishop_dirs
        (fun d hd l2 m2 hm2 => slide_ray_accept hocc hfin hb hne hal hty rfl 8 _ _ l2 m2 hm2)
        l m hm
    · exact Or.inl hm

/-- Every move emitted by a king single step is accepted by `apply_move`. -/
theorem king_step_accept {s : SearchState} {i : Int} (hocc : OccInv s)
    (hfin : is_inside (s.piece_col i) (s.piece_row i))
    (hb : s.board (s.piece_row i) (s.piece_col i) = i)
    (hne : i ≠ -1) (hal : s.alive i ≠ 0) (hty : s.piece_type i ≠ 0)
    {l : List Move} {m : Move} (hm : m ∈ king_step_moves s i l) :
    m ∈ l ∨ (apply_move s m).isSome = true := by
  have hb3 : s.board (s.piece_row i) (s.piece_col i) ≠ -1 := by rw [hb]; exact hne
  have hb4 : s.alive (s.board (s.piece_row i) (s.piece_col i)) ≠ 0 := by rw [hb]; exact hal
  simp only [king_step_moves] at hm
  refine @foldl_mem_accept (Int × Int) (fun m2 => (apply_move s m2).isSome = true)
    _ king_offsets ?_ l m hm
  intro off hoff l2 m2 hm2
  simp only [] at hm2
  split at hm2
  · rename_i hins
    split at hm2
    · rename_i hcnd
      rcases mem_append_move hm2 with hm2 | heq
      · exact Or.inl hm2
      · right
        subst heq
        refine apply_move_isSome hfin hins hb3 hb4 ?_ ?_
        · intro hepc
          rw [hb] at hepc
          exact absurd hepc.1 hty
        · intro hti
          obtain ⟨hc0, hc8, hr0, hr8⟩ := hins
          rcases hocc.1 _ _ hr0 hr8 hc0 hc8 with he | hf
          · exact absurd he hti
          · refine ⟨hf.2.2.1, ?_⟩
            rw [hb]
            rcases hcnd with hcnd | hcnd
            · exact absurd hcnd hti
            · exact hcnd
    · exact Or.inl hm2
  · exact Or.inl hm2

/-- Every move emitted by king generation, castling included, is accepted by
`apply_move`. -/
theorem king_moves_accept {s : SearchState} {i : Int} (hocc : OccInv s)
    (hfin : is_inside (s.piece_col i) (s.piece_row i))
    (hb : s.board (s.piece_row i) (s.piece_col i) = i)
    (hne : i ≠ -1) (hal : s.alive i ≠ 0) (hty : s.piece_type i ≠ 0)
    {l : List Move} {m : Move} (hm : m ∈ king_moves s i l) :
    m ∈ l ∨ (apply_move s m).isSome = true := by
  simp only [king_moves] at hm
  generalize hhome : (if s.piece_color i = 0 then (0 : Int) else 7) = home at hm
  have home01 : home = 0 ∨ home = 7 := by
    by_cases hx : s.piece_color i = 0
    · left
      rw [← hhome, if_pos hx]
    · right
      rw [← hhome, if_neg hx]
  split at hm
  · rename_i hmoved
    split at hm
    · rename_i hch
      have hb' : s.board home 4 = i := by rw [← hch.1, ← hch.2]; exact hb
      have hb3 : s.board home 4 ≠ -1 := by rw [hb']; exact hne
      have hb4 : s.alive (s.board home 4) ≠ 0 := by rw [hb']; exact hal
      have hin4 : is_inside 4 home := by rcases home01 with h | h <;> subst h <;> decide
      split at hm
      · rename_i hqs
        rcases mem_append_move hm with hm | heq
        · split at hm
          · rename_i hks
            rcases mem_append_move hm with hm | heq
            · exact king_step_accept hocc hfin hb hne hal hty hm
            · right
              subst heq
              refine apply_move_isSome hin4
                (by rcases home01 with h | h <;> subst h <;> decide) hb3 hb4 ?_ ?_
              · intro hepc
                rw [hb'] at hepc
                exact absurd hepc.1 hty
              · intro hti
                exact absurd hks.2.2.2.2.2.2 hti
          · exact king_step_accept hocc hfin hb hne hal hty hm
        · right
          subst heq
          refine apply_move_isSome hin4
            (by rcases home01 with h | h <;> subst h <;> decide) hb3 hb4 ?_ ?_
          · intro hepc
            rw [hb'] at hepc
            exact absurd hepc.1 hty
          · intro hti
            exact absurd hqs.2.2.2.2.2.2.1 hti
      · split at hm
        · rename_i hks
          rcases mem_append_move hm with hm | heq
          · exact king_step_accept hocc hfin hb hne hal hty hm
          · right
            subst heq
            refine apply_move_isSome hin4
              (by rcases home01 with h | h <;> subst h <;> decide) hb3 hb4 ?_ ?_
            · intro hepc
              rw [hb'] at hepc
              exact absurd hepc.1 hty
            · intro hti
              exact absurd hks.2.2.2.2.2.2 hti
        · exact king_step_accept hocc hfin hb hne hal hty hm
    · exact king_step_accept hocc hfin hb hne hal hty hm
  · exact king_step_accept hocc hfin hb hne hal hty hm

/-- Every move emitted by `generate_moves_for_piece` is accepted by
`apply_move`. -/
theorem generate_piece_accept {s : SearchState} {i : Int} (hocc : OccInv s)
    (hfin : is_inside (s.piece_col i) (s.piece_row i))
    (hb : s.board (s.piece_row i) (s.piece_col i) = i)
    (hne : i ≠ -1) (hal : s.alive i ≠ 0)
    {l : List Move} {m : Move} (hm : m ∈ generate_moves_for_piece s i l) :
    m ∈ l ∨ (apply_move s m).isSome = true := by
  simp only [generate_moves_for_piece] at hm
  split at hm
  · exact Or.inl hm
  · split at hm
    · exact pawn_moves_accept hfin hb hne hal hm
    · rename_i ht0
      split at hm
      · exact knight_moves_accept hocc hfin hb hne hal ht0 hm
      · split at hm
        · exact slider_moves_accept hocc hfin hb hne hal ht0 hm
        · split at hm
          · exact king_moves_accept hocc hfin hb hne hal ht0 hm
          · exact Or.inl hm

/-- C7: from a state satisfying the occupancy invariant, every move the
generator produces for a color is accepted by the move applier: the reject
branch is unreachable for generator-produced moves, including en-passant
captures and castling. -/
theorem generator_moves_accepted (s : SearchState) (color : Int) (hocc : OccInv s)
    (m : Move) (hm : m ∈ generate_legal_moves_for_color s color) :
    (apply_move s m).isSome = true := by
  unfold generate_legal_moves_for_color at hm
  have hstep : ∀ i ∈ pieceIdxs s, ∀ (l : List Move) (m2 : Move),
      m2 ∈ (fun (l : List Move) (i : Int) =>
        if s.alive i ≠ 0 ∧ s.piece_color i = color
        then generate_moves_for_piece s i l else l) l i →
      m2 ∈ l ∨ (apply_move s m2).isSome = true := by
    intro i hi l2 m2 hm2
    simp only [] at hm2
    split at hm2
    · rename_i hcnd
      obtain ⟨hfin, hb⟩ := hocc.2 i hi hcnd.1
      have hne : i ≠ -1 := by
        rw [mem_pieceIdxs] at hi
        omega
      exact generate_piece_accept hocc hfin hb hne hcnd.1 hm2
    · exact Or.inl hm2
  rcases @foldl_mem_accept Int (fun m2 => (apply_move s m2).isSome = true)
      _ (pieceIdxs s) hstep [] m hm with h | h
  · exact absurd h (List.not_mem_nil m)
  · exact h

/-- Concrete instance of C7: from the two-piece castling position every
generated white move is accepted; shown for the castling move itself. -/
theorem generator_moves_accepted_witness :
    OccInv occ_wit_state
    ∧ (⟨4, 0, 6, 0, -1⟩ : Move) ∈ generate_legal_moves_for_color occ_wit_state 0
    ∧ (apply_move occ_wit_state ⟨4, 0, 6, 0, -1⟩).isSome = true :=
  ⟨by decide, by decide,
    generator_moves_accepted occ_wit_state 0 (by decide) ⟨4, 0, 6, 0, -1⟩ (by decide)⟩

/-- The validity condition C6 enumerates for the entry point's piece
arrays: count in range, every piece on the board with a kind in 0..5 and a
color in 0..1, and no two pieces on the same square. -/
def valid_position (tys cls cf rf : Int → Int) (n : Int) : Prop :=
  0 ≤ n ∧ n ≤ 64
  ∧ ∀ k : Nat, k < n.toNat →
      is_inside (cf (k : Int)) (rf (k : Int))
      ∧ (0 ≤ tys (k : Int) ∧ tys (k : Int) ≤ 5)
      ∧ (cls (k : Int) = 0 ∨ cls (k : Int) = 1)
      ∧ ∀ j : Nat, j < k → ¬ (cf (j : Int) = cf (k : Int) ∧ rf (j : Int) = rf (k : Int))

instance valid_position_dec (tys cls cf rf : Int → Int) (n : Int) :
    Decidable (valid_position tys cls cf rf n) := by
  unfold valid_position
  exact inferInstance

/-- The `init_state` placement loop succeeds exactly on per-piece valid
arrays: validation of each slot plus no duplicate squares among the first
`n` slots. -/
theorem init_board_loop_isSome {tys cls cf rf : Int → Int} (n : Nat) :
    (init_board_loop tys cls cf rf n).isSome = true ↔
      ∀ k : Nat, k < n →
        is_inside (cf (k : Int)) (rf (k : Int))
        ∧ (0 ≤ tys (k : Int) ∧ tys (k : Int) ≤ 5)
        ∧ (cls (k : Int) = 0 ∨ cls (k : Int) = 1)
        ∧ ∀ j : Nat, j < k → ¬ (cf (j : Int) = cf (k : Int) ∧ rf (j : Int) = rf (k : Int)) := by
  induction n with
  | zero =>
    simp only [init_board_loop, Option.isSome_some, true_iff]
    intro k hk
    exact absurd hk (Nat.not_lt_zero k)
  | succ n ih =>
    constructor
    · intro h k hk
      rw [Option.isSome_iff_exists] at h
      obtain ⟨b, hb⟩ := h
      obtain ⟨hA, hB⟩ := init_board_loop_inv hb
      obtain ⟨h1, h2, h3, h4⟩ := hB k hk
      refine ⟨h1, h2, h3, ?_⟩
      intro j hj hdup
      obtain ⟨-, -, -, h5⟩ := hB j (by omega)
      rw [hdup.1, hdup.2, h4] at h5
      omega
    · intro h
      simp only [init_board_loop]
      have hn : (init_board_loop tys cls cf rf n).isSome = true :=
        ih.mpr (fun k hk => h k (by omega))
      rw [Option.isSome_iff_exists] at hn
      obtain ⟨b, hb⟩ := hn
      rw [hb]
      simp only []
      rw [if_pos ?_]
      · simp
      · obtain ⟨h1, h2, h3, h4⟩ := h n (by omega)
        refine ⟨h1, h2, h3, ?_⟩
        obtain ⟨hA, hB⟩ := init_board_loop_inv hb
        rcases hA (rf (n : Int)) (cf (n : Int)) with he | hf
        · exact he
        · exfalso
          set p := b (rf (n : Int)) (cf (n : Int)) with hp
          have hptn : p.toNat < n := by omega
          have hpc : (p.toNat : Int) = p := Int.toNat_of_nonneg hf.1
          refine h4 p.toNat hptn ⟨?_, ?_⟩
          · rw [hpc]
            exact hf.2.2.1
          · rw [hpc]
            exact hf.2.2.2

/-- C `init_state` succeeds exactly on valid inputs. -/
theorem init_state_isSome (tys cls cf rf : Int → Int) (mv : Option (Int → Int))
    (n ep1 ep2 ep3 ep4 hm : Int) :
    (init_state tys cls cf rf mv n ep1 ep2 ep3 ep4 hm).isSome = true ↔
      valid_position tys cls cf rf n := by
  unfold init_state valid_position
  split
  · rename_i hrange
    simp only [Option.isSome_none, Bool.false_eq_true, false_iff]
    rintro ⟨h1, h2, -⟩
    omega
  · rename_i hrange
    push_neg at hrange
    constructor
    · intro h
      refine ⟨hrange.1, hrange.2, ?_⟩
      rcases hloop : init_board_loop tys cls cf rf n.toNat with _ | b
      · rw [hloop] at h
        exact absurd h (by simp)
      · exact (init_board_loop_isSome n.toNat).mp (by rw [hloop]; simp) 
    · rintro ⟨-, -, hval⟩
      have := (init_board_loop_isSome n.toNat).mpr hval
      rw [Option.isSome_iff_exists] at this
      obtain ⟨b, hb⟩ := this
      rw [hb]
      simp

/-- C6: the entry point returns status 0 exactly on invalid inputs (a null
required pointer, or piece arrays failing validation, or an active color
outside 0..1), status 2 exactly when the inputs are valid but the active
color has no generated moves, status 1 otherwise, and the move output is
written exactly when the status is 1. -/
theorem choose_best_move_status {α : Type} [LinearOrderedCommRing α] :
    (∀ (a b c d e : Option (Int → Int)) (v : Option (Int → α))
        (count ac plies : Int) (prv : Option (Int → α)) (hprv : Bool) (bpv : α)
        (hbpv : Bool) (pm : Int → α) (hpm : Bool) (cw odf : α) (hodf : Bool)
        (ep1 ep2 ep3 ep4 hmc : Int) (outs : Bool) (cache : Option (SearchCache α)),
      a = none ∨ b = none ∨ c = none ∨ d = none ∨ e = none ∨ v = none →
      (choose_best_move_c a b c d e count ac plies v prv hprv bpv hbpv pm hpm cw odf
          hodf ep1 ep2 ep3 ep4 hmc outs cache).status = 0
      ∧ (choose_best_move_c a b c d e count ac plies v prv hprv bpv hbpv pm hpm cw odf
          hodf ep1 ep2 ep3 ep4 hmc outs cache).move_out = none)
    ∧ (∀ (tys cls cf rf mf : Int → Int) (pv : Int → α)
        (count ac plies : Int) (prv : Option (Int → α)) (hprv : Bool) (bpv : α)
        (hbpv : Bool) (pm : Int → α) (hpm : Bool) (cw odf : α) (hodf : Bool)
        (ep1 ep2 ep3 ep4 hmc : Int) (outs : Bool) (cache : Option (SearchCache α)),
      let r := choose_best_move_c (some tys) (some cls) (some cf) (some rf) (some mf)
        count ac plies (some pv) prv hprv bpv hbpv pm hpm cw odf hodf
        ep1 ep2 ep3 ep4 hmc outs cache
      let nmoves := (generate_legal_moves_for_color
        ((init_state tys cls cf rf (some mf) count ep1 ep2 ep3 ep4 hmc).getD zero_state)
        ac).length
      (r.status = 0 ↔
        outs = false ∨ ¬ (ac = 0 ∨ ac = 1) ∨ ¬ valid_position tys cls cf rf count)
      ∧ (r.status = 2 ↔
        outs = true ∧ (ac = 0 ∨ ac = 1) ∧ valid_position tys cls cf rf count
          ∧ nmoves = 0)
      ∧ (r.status = 1 ↔
        outs = true ∧ (ac = 0 ∨ ac = 1) ∧ valid_position tys cls cf rf count
          ∧ nmoves ≠ 0)
      ∧ (r.move_out.isSome = true ↔ r.status = 1)) := by
  constructor
  · intro a b c d e v count ac plies prv hprv bpv hbpv pm hpm cw odf hodf
      ep1 ep2 ep3 ep4 hmc outs cache hnull
    rcases a with _ | a
    · exact ⟨rfl, rfl⟩
    rcases b with _ | b
    · exact ⟨rfl, rfl⟩
    rcases c with _ | c
    · exact ⟨rfl, rfl⟩
    rcases d with _ | d
    · exact ⟨rfl, rfl⟩
    rcases e with _ | e
    · exact ⟨rfl, rfl⟩
    rcases v with _ | v
    · exact ⟨rfl, rfl⟩
    rcases hnull with h | h | h | h | h | h <;> exact absurd h (by simp)
  · intro tys cls cf rf mf pv count ac plies prv hprv bpv hbpv pm hpm cw odf hodf
      ep1 ep2 ep3 ep4 hmc outs cache
    simp only [choose_best_move_c]
    cases outs with
    | false => simp
    | true =>
      rw [if_neg (by simp)]
      by_cases hac : ac = 0 ∨ ac = 1
      · rw [if_neg (not_not_intro hac)]
        rcases hinit : init_state tys cls cf rf (some mf) count ep1 ep2 ep3 ep4 hmc
          with _ | root
        · have hch := init_state_isSome tys cls cf rf (some mf) count ep1 ep2 ep3 ep4 hmc
          rw [hinit] at hch
          simp only [Option.isSome_none, Bool.false_eq_true, false_iff] at hch
          simp [eq_true hac, eq_false hch]
        · have hch := init_state_isSome tys cls cf rf (some mf) count ep1 ep2 ep3 ep4 hmc
          rw [hinit] at hch
          have hv : valid_position tys cls cf rf count := hch.mp rfl
          simp only [Option.getD_some]
          by_cases hlen : (generate_legal_moves_for_color root ac).length = 0
          · rw [if_pos hlen]
            simp [eq_true hac, eq_true hv, hlen]
          · rw [if_neg hlen]
            simp [eq_true hac, eq_true hv, eq_false hlen]
      · rw [if_pos hac]
        simp [eq_false hac]

/-- Concrete instance of C6: a null piece_values pointer is rejected with
untouched outputs, and on the two-piece position the call succeeds with
status 1 and a written move. -/
theorem choose_best_move_status_witness :
    ((choose_best_move_c (some (fun i => if i = 0 then 5 else 3)) (some (fun x => 0))
        (some (fun i => if i = 0 then 4 else 7)) (some (fun x => 0)) (some (fun x => 0))
        2 0 1 (none : Option (Int → Int)) none false 0 false (fun x => 1) false 0 0 false
        (-1) (-1) (-1) (-1) 0 true none).status = 0
      ∧ (choose_best_move_c (some (fun i => if i = 0 then 5 else 3)) (some (fun x => 0))
        (some (fun i => if i = 0 then 4 else 7)) (some (fun x => 0)) (some (fun x => 0))
        2 0 1 (none : Option (Int → Int)) none false 0 false (fun x => 1) false 0 0 false
        (-1) (-1) (-1) (-1) 0 true none).move_out = none)
    ∧ ((choose_best_move_c (some (fun i => if i = 0 then 5 else 3)) (some (fun x => 0))
        (some (fun i => if i = 0 then 4 else 7)) (some (fun x => 0)) (some (fun x => 0))
        2 0 1 (some (fun x => (1 : Int))) none false 0 false (fun x => 1) false 0 0 false
        (-1) (-1) (-1) (-1) 0 true none).status = 1
      ∧ ((choose_best_move_c (some (fun i => if i = 0 then 5 else 3)) (some (fun x => 0))
        (some (fun i => if i = 0 then 4 else 7)) (some (fun x => 0)) (some (fun x => 0))
        2 0 1 (some (fun x => (1 : Int))) none false 0 false (fun x => 1) false 0 0 false
        (-1) (-1) (-1) (-1) 0 true none).move_out.isSome = true)) := by
  constructor
  · exact choose_best_move_status.1 _ _ _ _ _ _ 2 0 1 none false 0 false (fun x => 1)
      false 0 0 false (-1) (-1) (-1) (-1) 0 true none
      (Or.inr (Or.inr (Or.inr (Or.inr (Or.inr rfl)))))
  · have h := (choose_best_move_status.2 (fun i => if i = 0 then 5 else 3) (fun x => 0)
      (fun i => if i = 0 then 4 else 7) (fun x => 0) (fun x => 0) (fun x => (1 : Int))
      2 0 1 none false 0 false (fun x => 1) false 0 0 false
      (-1) (-1) (-1) (-1) 0 true none).2.2
    refine ⟨h.1.mpr ⟨rfl, Or.inl rfl, by decide, by decide⟩, ?_⟩
    exact h.2.mpr (h.1.mpr ⟨rfl, Or.inl rfl, by decide, by decide⟩)
